import Mathlib

/-!
Verification of the migration change-detection and tracking subsystem of the
bourbon web framework.  The definitions below are shallow embeddings of the
Go sources: `bourbon/core/migration/migration.go` (the applied-migrations
ledger and its runner), `bourbon/cmd/model_scanner.go` (model descriptors),
`bourbon/cmd/migration_changes.go` (change detection), the migration state
file (`ComputeModelsHash`, `ComputeSingleModelHash`, `UpdateMigrationState`),
the migration code generator (`GenerateMigrationCodeFromChanges`,
`GenerateRollbackCodeFromChanges`) and `bourbon/cmd/migrations.go`
(`GenerateMigrationForApp`).  Filesystem and database effects are modelled
by explicit state passing; Go maps are modelled as association lists where
an insert with an existing key overwrites (lookup takes the last binding).
-/

namespace Bourbon

/-- One row of the `bourbon_migrations` table (`DjangoMigration` in
`core/migration/migration.go`).  The auto-increment id and the `Applied`
timestamp column play no role in the claims and are omitted. -/
structure LedgerEntry where
  App : String
  Name : String
deriving DecidableEq

/-- A migration as seen by the runner (the `Migration` interface): its app,
its name, and the outcomes its `Up` and `Down` callbacks would produce
against the current database. -/
structure MigrationDef where
  App : String
  Name : String
  Up : Except String Unit
  Down : Except String Unit

/-- `MigrationRunner.IsApplied`: a migration is applied when a ledger row
with its (app, name) pair exists (`count > 0` over the where-clause). -/
def IsApplied (ledger : List LedgerEntry) (app nm : String) : Bool :=
  ledger.any fun e => e.App == app && e.Name == nm

/-- `MigrationRunner.RecordMigration`: insert one (app, name) row. -/
def RecordMigration (ledger : List LedgerEntry) (app nm : String) : List LedgerEntry :=
  ledger ++ [{ App := app, Name := nm }]

/-- `MigrationRunner.RemoveMigration`: delete every row matching
the (app, name) pair. -/
def RemoveMigration (ledger : List LedgerEntry) (app nm : String) : List LedgerEntry :=
  ledger.filter fun e => !(e.App == app && e.Name == nm)

/-- Outcome of `RunMigration` / `RollbackMigration`: the returned error (if
any), the ledger afterwards, and whether the Up (resp. Down) callback was
invoked.  The database state manipulated by the callbacks themselves is
outside the ledger claims and not tracked; the ledger primitives
(`Count`, `Create`, `Delete`) are modelled as reliable. -/
structure RunResult where
  err : Option String
  ledger : List LedgerEntry
  invoked : Bool
deriving DecidableEq

/-- `MigrationRunner.RunMigration`: skip when already applied; otherwise run
`Up` and record the migration only when `Up` succeeded. -/
def RunMigration (ledger : List LedgerEntry) (m : MigrationDef) : RunResult :=
  if IsApplied ledger m.App m.Name then
    { err := none, ledger := ledger, invoked := false }
  else
    match m.Up with
    | .error e =>
        { err := some ("error running migration " ++ m.App ++ "." ++ m.Name ++ ": " ++ e),
          ledger := ledger, invoked := true }
    | .ok _ =>
        { err := none, ledger := RecordMigration ledger m.App m.Name, invoked := true }

/-- `MigrationRunner.RollbackMigration`: skip when not applied; otherwise run
`Down` and remove the ledger record only when `Down` succeeded. -/
def RollbackMigration (ledger : List LedgerEntry) (m : MigrationDef) : RunResult :=
  if IsApplied ledger m.App m.Name then
    match m.Down with
    | .error e =>
        { err := some ("error rolling back migration " ++ m.App ++ "." ++ m.Name ++ ": " ++ e),
          ledger := ledger, invoked := true }
    | .ok _ =>
        { err := none, ledger := RemoveMigration ledger m.App m.Name, invoked := true }
  else
    { err := none, ledger := ledger, invoked := false }

/-- C6: the ledger is atomic with respect to callback failure.  If the `Up`
callback of a pending migration fails, `RunMigration` returns that error and
the ledger is unchanged; if the `Down` callback of an applied migration
fails, `RollbackMigration` returns that error and the ledger record is
kept. -/
theorem callbackFailureLeavesLedger (l : List LedgerEntry) (m : MigrationDef) (e : String) :
    (IsApplied l m.App m.Name = false → m.Up = .error e →
      RunMigration l m =
        { err := some ("error running migration " ++ m.App ++ "." ++ m.Name ++ ": " ++ e),
          ledger := l, invoked := true }) ∧
    (IsApplied l m.App m.Name = true → m.Down = .error e →
      RollbackMigration l m =
        { err := some ("error rolling back migration " ++ m.App ++ "." ++ m.Name ++ ": " ++ e),
          ledger := l, invoked := true }) := by
  constructor
  · intro h hup
    simp [RunMigration, h, hup]
  · intro h hdown
    simp [RollbackMigration, h, hdown]

/-- Witness for C6 on a concrete ledger and migration. -/
theorem callbackFailureLeavesLedgerWitness :
    RunMigration [] { App := "blog", Name := "0001_init", Up := .error "boom", Down := .ok () } =
      { err := some ("error running migration " ++ "blog" ++ "." ++ "0001_init" ++ ": " ++ "boom"),
        ledger := [], invoked := true } ∧
    RollbackMigration [{ App := "blog", Name := "0001_init" }]
        { App := "blog", Name := "0001_init", Up := .ok (), Down := .error "boom" } =
      { err := some ("error rolling back migration " ++ "blog" ++ "." ++ "0001_init" ++ ": " ++ "boom"),
        ledger := [{ App := "blog", Name := "0001_init" }], invoked := true } := by
  constructor
  · exact (callbackFailureLeavesLedger []
      { App := "blog", Name := "0001_init", Up := .error "boom", Down := .ok () } "boom").1
      (by decide) rfl
  · exact (callbackFailureLeavesLedger [{ App := "blog", Name := "0001_init" }]
      { App := "blog", Name := "0001_init", Up := .ok (), Down := .error "boom" } "boom").2
      (by decide) rfl

/-- C7: forward apply is idempotent with respect to the ledger.  A migration
whose (app, name) pair is already recorded is skipped: `RunMigration`
returns nil without invoking `Up` and without inserting a second record;
consequently running again after any successful run changes nothing. -/
theorem runMigrationIdempotent (l : List LedgerEntry) (m : MigrationDef) :
    (IsApplied l m.App m.Name = true →
      RunMigration l m = { err := none, ledger := l, invoked := false }) ∧
    ((RunMigration l m).err = none →
      RunMigration (RunMigration l m).ledger m =
        { err := none, ledger := (RunMigration l m).ledger, invoked := false }) := by
  constructor
  · intro h
    simp [RunMigration, h]
  · intro h
    by_cases ha : IsApplied l m.App m.Name = true
    · simp [RunMigration, ha]
    · cases hup : m.Up with
      | error e => simp [RunMigration, ha, hup] at h
      | ok u =>
        have hrec : IsApplied (RecordMigration l m.App m.Name) m.App m.Name = true := by
          simp [IsApplied, RecordMigration]
        simp [RunMigration, ha, hup, hrec]

/-- Witness for C7: an already-recorded migration is skipped and a second
run after a first successful run is a no-op. -/
theorem runMigrationIdempotentWitness :
    RunMigration [{ App := "blog", Name := "0001_init" }]
        { App := "blog", Name := "0001_init", Up := .ok (), Down := .ok () } =
      { err := none, ledger := [{ App := "blog", Name := "0001_init" }], invoked := false } ∧
    RunMigration
        (RunMigration [] { App := "blog", Name := "0001_init", Up := .ok (), Down := .ok () }).ledger
        { App := "blog", Name := "0001_init", Up := .ok (), Down := .ok () } =
      { err := none,
        ledger := (RunMigration []
          { App := "blog", Name := "0001_init", Up := .ok (), Down := .ok () }).ledger,
        invoked := false } := by
  constructor
  · exact (runMigrationIdempotent [{ App := "blog", Name := "0001_init" }]
      { App := "blog", Name := "0001_init", Up := .ok (), Down := .ok () }).1 (by decide)
  · exact (runMigrationIdempotent []
      { App := "blog", Name := "0001_init", Up := .ok (), Down := .ok () }).2 (by decide)

/-- C8: rolling back a migration whose (app, name) pair is not in the ledger
is a no-op reported as success: nil error, `Down` not invoked, ledger
unchanged. -/
theorem rollbackNotAppliedNoop (l : List LedgerEntry) (m : MigrationDef)
    (h : IsApplied l m.App m.Name = false) :
    RollbackMigration l m = { err := none, ledger := l, invoked := false } := by
  simp [RollbackMigration, h]

/-- Witness for C8 on a concrete ledger that does not hold the pair. -/
theorem rollbackNotAppliedNoopWitness :
    RollbackMigration [{ App := "shop", Name := "0002_items" }]
        { App := "blog", Name := "0001_init", Up := .ok (), Down := .ok () } =
      { err := none, ledger := [{ App := "shop", Name := "0002_items" }], invoked := false } :=
  rollbackNotAppliedNoop [{ App := "shop", Name := "0002_items" }]
    { App := "blog", Name := "0001_init", Up := .ok (), Down := .ok () } (by decide)

/-- `FieldInfo` from `cmd/model_scanner.go`.  The Go field `Type` is called
`Typ` here because `Type` is a reserved word in Lean. -/
structure FieldInfo where
  Name : String
  Typ : String
  Tag : String
  IsPointer : Bool
deriving DecidableEq

/-- `ModelInfo` from `cmd/model_scanner.go`. -/
structure ModelInfo where
  Name : String
  Fields : List FieldInfo
  PackageName : String
  FilePath : String
deriving DecidableEq

/-- `FieldState` from the migration state file. -/
structure FieldState where
  Name : String
  Typ : String
  Tag : String
deriving DecidableEq

/-- `ModelState` from the migration state file. -/
structure ModelState where
  Name : String
  Hash : String
  Fields : List FieldState
deriving DecidableEq

/-- `AppMigrationState` from the migration state file.  The Go
`map[string]*ModelState` is modelled as an association list whose keys are
unique in any state produced by the code. -/
structure AppMigrationState where
  LastHash : String
  LastMigration : String
  Models : List (String × ModelState)
deriving DecidableEq

/-- Strict lexicographic comparison of character lists by code point.  This
is the order of Go string comparison (byte-wise comparison of UTF-8 strings
coincides with code-point order). -/
def lexLtb : List Char → List Char → Bool
  | [], [] => false
  | [], _ :: _ => true
  | _ :: _, [] => false
  | a :: as, b :: bs =>
    if a.toNat < b.toNat then true
    else if b.toNat < a.toNat then false
    else lexLtb as bs

/-- The string `s` compares at most `t` in Go string order. -/
def strLe (s t : String) : Prop := lexLtb t.data s.data = false

/-- The string `s` compares strictly below `t` in Go string order. -/
def strLt (s t : String) : Prop := lexLtb s.data t.data = true

theorem lexLtb_total : ∀ x y : List Char, lexLtb x y = false ∨ lexLtb y x = false := by
  intro x
  induction x with
  | nil =>
    intro y
    cases y with
    | nil => exact Or.inl rfl
    | cons b bs => exact Or.inr rfl
  | cons a as ih =>
    intro y
    cases y with
    | nil => exact Or.inl rfl
    | cons b bs =>
      rcases Nat.lt_trichotomy a.toNat b.toNat with h | h | h
      · refine Or.inr ?_
        simp only [lexLtb]
        rw [if_neg (by omega), if_pos h]
      · rcases ih bs with htail | htail
        · refine Or.inl ?_
          simp only [lexLtb]
          rw [if_neg (by omega), if_neg (by omega)]
          exact htail
        · refine Or.inr ?_
          simp only [lexLtb]
          rw [if_neg (by omega), if_neg (by omega)]
          exact htail
      · refine Or.inl ?_
        simp only [lexLtb]
        rw [if_neg (by omega), if_pos h]

theorem lexLtb_le_trans : ∀ x y z : List Char,
    lexLtb y x = false → lexLtb z y = false → lexLtb z x = false := by
  intro x
  induction x with
  | nil =>
    intro y z _ _
    cases z with
    | nil => rfl
    | cons c cs => rfl
  | cons a as ih =>
    intro y z h1 h2
    cases y with
    | nil => simp [lexLtb] at h1
    | cons b bs =>
      cases z with
      | nil => simp [lexLtb] at h2
      | cons c cs =>
        simp only [lexLtb] at h1 h2 ⊢
        split_ifs at h1 h2 ⊢ with hba hab hcb hbc hca hac
        all_goals try rfl
        all_goals try omega
        exact ih bs cs h1 h2

theorem lexLtb_antisymm : ∀ x y : List Char,
    lexLtb x y = false → lexLtb y x = false → x = y := by
  intro x
  induction x with
  | nil =>
    intro y h1 _
    cases y with
    | nil => rfl
    | cons b bs => simp [lexLtb] at h1
  | cons a as ih =>
    intro y h1 h2
    cases y with
    | nil => simp [lexLtb] at h2
    | cons b bs =>
      simp only [lexLtb] at h1 h2
      split_ifs at h1 h2 with hab hba
      have hn : a.toNat = b.toNat := by omega
      have hchar : a = b :=
        Char.eq_of_val_eq (UInt32.eq_of_toBitVec_eq (BitVec.eq_of_toNat_eq hn))
      rw [hchar, ih bs h1 h2]

theorem string_data_eq {s t : String} (h : s.data = t.data) : s = t :=
  congrArg String.mk h

theorem strLe_total (s t : String) : strLe s t ∨ strLe t s :=
  lexLtb_total t.data s.data

theorem strLe_trans {s t u : String} (h1 : strLe s t) (h2 : strLe t u) : strLe s u :=
  lexLtb_le_trans s.data t.data u.data h1 h2

theorem strLe_antisymm {s t : String} (h1 : strLe s t) (h2 : strLe t s) : s = t :=
  (string_data_eq (lexLtb_antisymm t.data s.data h1 h2)).symm

/-- Comparison used by `sort.Slice` in `ComputeModelsHash` and
`ComputeSingleModelHash`: ascending model name. -/
def modelLe (a b : ModelInfo) : Prop := strLe a.Name b.Name

/-- Comparison for field sorting inside the hash functions: ascending
field name. -/
def fieldLe (a b : FieldInfo) : Prop := strLe a.Name b.Name

instance : DecidableRel modelLe :=
  fun a b => inferInstanceAs (Decidable (lexLtb b.Name.data a.Name.data = false))

instance : DecidableRel fieldLe :=
  fun a b => inferInstanceAs (Decidable (lexLtb b.Name.data a.Name.data = false))

instance : IsTotal ModelInfo modelLe := ⟨fun a b => strLe_total a.Name b.Name⟩

instance : IsTrans ModelInfo modelLe := ⟨fun _ _ _ hab hbc => strLe_trans hab hbc⟩

instance : IsTotal FieldInfo fieldLe := ⟨fun a b => strLe_total a.Name b.Name⟩

instance : IsTrans FieldInfo fieldLe := ⟨fun _ _ _ hab hbc => strLe_trans hab hbc⟩

/-- The ascending-by-name sort of `sort.Slice` over fields, modelled with an
insertion sort (a stable comparison sort, like the element-preserving sort
the Go code performs on its copy of the slice). -/
def sortFields (fs : List FieldInfo) : List FieldInfo := List.insertionSort fieldLe fs

/-- The ascending-by-name sort of `sort.Slice` over models. -/
def sortModels (ms : List ModelInfo) : List ModelInfo := List.insertionSort modelLe ms

/-- The bytes `ComputeModelsHash` and `ComputeSingleModelHash` write to the
hasher for one field: `Name:Type:Tag` (`fmt.Sprintf("%s:%s:%s", ...)`). -/
def fieldLine (f : FieldInfo) : String := f.Name ++ ":" ++ f.Typ ++ ":" ++ f.Tag

/-- `ComputeSingleModelHash` from the migration state file.  The SHA-256
digest is modelled by the exact byte sequence written to the hasher: SHA-256
is a fixed function, so equal inputs give equal digests, and distinct inputs
give distinct digests barring a hash collision. -/
def ComputeSingleModelHash (m : ModelInfo) : String :=
  m.Name ++ String.join ((sortFields m.Fields).map fieldLine)

/-- `ComputeModelsHash` from the migration state file: models sorted by
name, then for each model its name followed by its name-sorted field
lines. -/
def ComputeModelsHash (models : List ModelInfo) : String :=
  String.join ((sortModels models).map fun m =>
    m.Name ++ String.join ((sortFields m.Fields).map fieldLine))

/-- Two permuted lists that are both sorted by a key repeating in neither
are equal.  (Antisymmetry fails on the element type itself: two distinct
values may share a key, which is exactly what the C4 counterexample
exploits.) -/
theorem perm_eq_of_sorted_of_nodup_key {α : Type} (key : α → String) :
    ∀ (l₁ l₂ : List α), l₁.Perm l₂ →
      (l₁.map key).Nodup →
      l₁.Pairwise (fun a b => strLe (key a) (key b)) →
      l₂.Pairwise (fun a b => strLe (key a) (key b)) →
      l₁ = l₂ := by
  intro l₁
  induction l₁ with
  | nil =>
    intro l₂ hp _ _ _
    exact (hp.symm.eq_nil).symm
  | cons a as ih =>
    intro l₂ hp hnd hs₁ hs₂
    cases l₂ with
    | nil => simp at hp
    | cons b bs =>
      have hnd' : key a ∉ as.map key ∧ (as.map key).Nodup := by
        constructor
        · exact (List.nodup_cons.mp (by simpa using hnd)).1
        · exact (List.nodup_cons.mp (by simpa using hnd)).2
      have hab : a = b := by
        by_contra hne
        have hamem : a ∈ b :: bs := hp.mem_iff.mp (List.mem_cons_self a as)
        have hbmem : b ∈ a :: as := hp.symm.mem_iff.mp (List.mem_cons_self b bs)
        have ha2 : a ∈ bs := by
          cases List.mem_cons.mp hamem with
          | inl h => exact absurd h hne
          | inr h => exact h
        have hb2 : b ∈ as := by
          cases List.mem_cons.mp hbmem with
          | inl h => exact absurd h.symm hne
          | inr h => exact h
        have h1 : strLe (key a) (key b) := (List.pairwise_cons.mp hs₁).1 b hb2
        have h2 : strLe (key b) (key a) := (List.pairwise_cons.mp hs₂).1 a ha2
        have hkey : key a = key b := strLe_antisymm h1 h2
        have : key a ∈ as.map key := by
          rw [hkey]
          exact List.mem_map_of_mem key hb2
        exact hnd'.1 this
      subst hab
      have htail := ih bs hp.cons_inv hnd'.2
        (List.pairwise_cons.mp hs₁).2 (List.pairwise_cons.mp hs₂).2
      rw [htail]

/-- Sorting fields by name is permutation-invariant when field names are
pairwise distinct. -/
theorem sortFields_perm_eq {fs₁ fs₂ : List FieldInfo} (hp : fs₁.Perm fs₂)
    (hnd : (fs₁.map FieldInfo.Name).Nodup) :
    sortFields fs₁ = sortFields fs₂ := by
  apply perm_eq_of_sorted_of_nodup_key (fun f => f.Name)
  · exact (List.perm_insertionSort fieldLe fs₁).trans
      (hp.trans (List.perm_insertionSort fieldLe fs₂).symm)
  · have hm : ((sortFields fs₁).map FieldInfo.Name).Perm (fs₁.map FieldInfo.Name) :=
      (List.perm_insertionSort fieldLe fs₁).map _
    exact hm.nodup_iff.mpr hnd
  · exact List.sorted_insertionSort fieldLe fs₁
  · exact List.sorted_insertionSort fieldLe fs₂

/-- Sorting models by name is permutation-invariant when model names are
pairwise distinct. -/
theorem sortModels_perm_eq {ms₁ ms₂ : List ModelInfo} (hp : ms₁.Perm ms₂)
    (hnd : (ms₁.map ModelInfo.Name).Nodup) :
    sortModels ms₁ = sortModels ms₂ := by
  apply perm_eq_of_sorted_of_nodup_key (fun m => m.Name)
  · exact (List.perm_insertionSort modelLe ms₁).trans
      (hp.trans (List.perm_insertionSort modelLe ms₂).symm)
  · have hm : ((sortModels ms₁).map ModelInfo.Name).Perm (ms₁.map ModelInfo.Name) :=
      (List.perm_insertionSort modelLe ms₁).map _
    exact hm.nodup_iff.mpr hnd
  · exact List.sorted_insertionSort modelLe ms₁
  · exact List.sorted_insertionSort modelLe ms₂

/-- Relation between two models that differ only by a permutation of their
field lists (names equal, fields permuted). -/
def FieldsPermuted (m mp : ModelInfo) : Prop :=
  m.Name = mp.Name ∧ m.Fields.Perm mp.Fields

/-- Inserting pointwise `FieldsPermuted`-related models preserves the
pointwise relation: the insertion position only depends on names, which
agree. -/
theorem orderedInsert_fieldsPermuted {a ap : ModelInfo} (haa : FieldsPermuted a ap) :
    ∀ {l lp : List ModelInfo}, List.Forall₂ FieldsPermuted l lp →
      List.Forall₂ FieldsPermuted
        (List.orderedInsert modelLe a l) (List.orderedInsert modelLe ap lp) := by
  intro l lp hf
  induction hf with
  | nil => simpa using List.Forall₂.cons haa List.Forall₂.nil
  | @cons b bp bs bsp hbb htail ih =>
    by_cases h : modelLe a b
    · have hp : modelLe ap bp := by
        unfold modelLe at h ⊢
        rw [← haa.1, ← hbb.1]
        exact h
      simpa [List.orderedInsert, h, hp] using
        List.Forall₂.cons haa (List.Forall₂.cons hbb htail)
    · have hp : ¬ modelLe ap bp := by
        unfold modelLe at h ⊢
        rw [← haa.1, ← hbb.1]
        exact h
      simpa [List.orderedInsert, h, hp] using List.Forall₂.cons hbb ih

/-- Sorting pointwise `FieldsPermuted`-related model lists preserves the
pointwise relation. -/
theorem insertionSort_fieldsPermuted :
    ∀ {l lp : List ModelInfo}, List.Forall₂ FieldsPermuted l lp →
      List.Forall₂ FieldsPermuted
        (List.insertionSort modelLe l) (List.insertionSort modelLe lp) := by
  intro l lp hf
  induction hf with
  | nil => simp
  | @cons b bp bs bsp hbb htail ih =>
    simpa [List.insertionSort] using orderedInsert_fieldsPermuted hbb ih

/-- The transcript line of a model is unchanged when its fields are permuted,
provided field names are pairwise distinct. -/
theorem modelLine_eq {m mp : ModelInfo} (h : FieldsPermuted m mp)
    (hnd : (m.Fields.map FieldInfo.Name).Nodup) :
    m.Name ++ String.join ((sortFields m.Fields).map fieldLine) =
    mp.Name ++ String.join ((sortFields mp.Fields).map fieldLine) := by
  rw [h.1, sortFields_perm_eq h.2 hnd]

/-- Mapping the transcript line over pointwise `FieldsPermuted`-related
lists gives equal results when every left model has distinct field names. -/
theorem mapLine_eq :
    ∀ {l lp : List ModelInfo}, List.Forall₂ FieldsPermuted l lp →
      (∀ m, m ∈ l → (m.Fields.map FieldInfo.Name).Nodup) →
      l.map (fun m => m.Name ++ String.join ((sortFields m.Fields).map fieldLine)) =
      lp.map (fun m => m.Name ++ String.join ((sortFields m.Fields).map fieldLine)) := by
  intro l lp hf
  induction hf with
  | nil => intro _; rfl
  | @cons b bp bs bsp hbb htail ih =>
    intro hnd
    simp only [List.map_cons]
    rw [modelLine_eq hbb (hnd b (List.mem_cons_self b bs)),
      ih (fun m hm => hnd m (List.mem_cons_of_mem b hm))]

/-- C4 (amended): the content hash is deterministic and order-independent
on well-formed model sets.  For model lists with pairwise-distinct model
names and pairwise-distinct field names within each model,
`ComputeModelsHash` is invariant under any permutation of the model list
combined with any permutation of each model's field list, and
`ComputeSingleModelHash` is invariant under permutation of a model's
fields.  (The distinctness hypotheses are forced by the counterexample:
sorting keys only on the name leaves the relative order of two equally
named entries input-dependent.) -/
theorem modelsHashPermutationInvariant
    (M M₀ Mp : List ModelInfo)
    (hperm : M.Perm M₀)
    (hfields : List.Forall₂ FieldsPermuted M₀ Mp)
    (hnames : (M.map ModelInfo.Name).Nodup)
    (hfieldnames : ∀ m, m ∈ M → (m.Fields.map FieldInfo.Name).Nodup) :
    ComputeModelsHash Mp = ComputeModelsHash M ∧
    (∀ (m : ModelInfo) (fs : List FieldInfo), m.Fields.Perm fs →
      (m.Fields.map FieldInfo.Name).Nodup →
      ComputeSingleModelHash { m with Fields := fs } = ComputeSingleModelHash m) := by
  constructor
  · have hA : ComputeModelsHash M = ComputeModelsHash M₀ := by
      unfold ComputeModelsHash
      rw [sortModels_perm_eq hperm hnames]
    have hsorted : List.Forall₂ FieldsPermuted (sortModels M₀) (sortModels Mp) :=
      insertionSort_fieldsPermuted hfields
    have hmem : ∀ m, m ∈ sortModels M₀ → (m.Fields.map FieldInfo.Name).Nodup := by
      intro m hm
      have : m ∈ M₀ := (List.perm_insertionSort modelLe M₀).mem_iff.mp hm
      exact hfieldnames m (hperm.symm.mem_iff.mp this)
    have hB : ComputeModelsHash M₀ = ComputeModelsHash Mp := by
      unfold ComputeModelsHash
      rw [mapLine_eq hsorted hmem]
    rw [← hB, ← hA]
  · intro m fs hp hnd
    unfold ComputeSingleModelHash
    have : sortFields m.Fields = sortFields fs := sortFields_perm_eq hp hnd
    simp [this]

/-- Witness for C4 (amended) on concrete model lists: reversing the model
list and a field list leaves both hashes unchanged. -/
theorem modelsHashPermutationInvariantWitness :
    ComputeModelsHash
        [{ Name := "User",
           Fields := [{ Name := "Email", Typ := "string", Tag := "", IsPointer := false },
                      { Name := "Name", Typ := "string", Tag := "", IsPointer := false }],
           PackageName := "models", FilePath := "apps/blog/models.go" },
         { Name := "Post",
           Fields := [{ Name := "Title", Typ := "string", Tag := "", IsPointer := false }],
           PackageName := "models", FilePath := "apps/blog/models.go" }] =
      ComputeModelsHash
        [{ Name := "Post",
           Fields := [{ Name := "Title", Typ := "string", Tag := "", IsPointer := false }],
           PackageName := "models", FilePath := "apps/blog/models.go" },
         { Name := "User",
           Fields := [{ Name := "Name", Typ := "string", Tag := "", IsPointer := false },
                      { Name := "Email", Typ := "string", Tag := "", IsPointer := false }],
           PackageName := "models", FilePath := "apps/blog/models.go" }] := by
  have h := modelsHashPermutationInvariant
    ([{ Name := "Post",
        Fields := [{ Name := "Title", Typ := "string", Tag := "", IsPointer := false }],
        PackageName := "models", FilePath := "apps/blog/models.go" },
      { Name := "User",
        Fields := [{ Name := "Name", Typ := "string", Tag := "", IsPointer := false },
                   { Name := "Email", Typ := "string", Tag := "", IsPointer := false }],
        PackageName := "models", FilePath := "apps/blog/models.go" }] : List ModelInfo)
    ([{ Name := "User",
        Fields := [{ Name := "Name", Typ := "string", Tag := "", IsPointer := false },
                   { Name := "Email", Typ := "string", Tag := "", IsPointer := false }],
        PackageName := "models", FilePath := "apps/blog/models.go" },
      { Name := "Post",
        Fields := [{ Name := "Title", Typ := "string", Tag := "", IsPointer := false }],
        PackageName := "models", FilePath := "apps/blog/models.go" }] : List ModelInfo)
    ([{ Name := "User",
        Fields := [{ Name := "Email", Typ := "string", Tag := "", IsPointer := false },
                   { Name := "Name", Typ := "string", Tag := "", IsPointer := false }],
        PackageName := "models", FilePath := "apps/blog/models.go" },
      { Name := "Post",
        Fields := [{ Name := "Title", Typ := "string", Tag := "", IsPointer := false }],
        PackageName := "models", FilePath := "apps/blog/models.go" }] : List ModelInfo)
    (by decide)
    (List.Forall₂.cons (by refine ⟨rfl, ?_⟩; decide)
      (List.Forall₂.cons (by refine ⟨rfl, ?_⟩; decide) List.Forall₂.nil))
    (by decide)
    (by intro m hm; fin_cases hm <;> decide)
  exact h.1

/-- C4 counterexample: on a list holding two models with the same name but
different fields, `ComputeModelsHash` is not invariant under permutation of
the model list, because the name-keyed sort cannot order the two entries
canonically.  Hence the claim as stated, quantified over every list of
models, fails. -/
theorem modelsHashDuplicateNameCounterexample :
    List.Perm
        ([{ Name := "A",
            Fields := [{ Name := "F", Typ := "int", Tag := "", IsPointer := false }],
            PackageName := "models", FilePath := "apps/blog/models.go" },
          { Name := "A",
            Fields := [{ Name := "F", Typ := "string", Tag := "", IsPointer := false }],
            PackageName := "models", FilePath := "apps/blog/models.go" }] : List ModelInfo)
        ([{ Name := "A",
            Fields := [{ Name := "F", Typ := "string", Tag := "", IsPointer := false }],
            PackageName := "models", FilePath := "apps/blog/models.go" },
          { Name := "A",
            Fields := [{ Name := "F", Typ := "int", Tag := "", IsPointer := false }],
            PackageName := "models", FilePath := "apps/blog/models.go" }] : List ModelInfo) ∧
    ComputeModelsHash
        [{ Name := "A",
           Fields := [{ Name := "F", Typ := "int", Tag := "", IsPointer := false }],
           PackageName := "models", FilePath := "apps/blog/models.go" },
         { Name := "A",
           Fields := [{ Name := "F", Typ := "string", Tag := "", IsPointer := false }],
           PackageName := "models", FilePath := "apps/blog/models.go" }] ≠
      ComputeModelsHash
        [{ Name := "A",
           Fields := [{ Name := "F", Typ := "string", Tag := "", IsPointer := false }],
           PackageName := "models", FilePath := "apps/blog/models.go" },
         { Name := "A",
           Fields := [{ Name := "F", Typ := "int", Tag := "", IsPointer := false }],
           PackageName := "models", FilePath := "apps/blog/models.go" }] := by
  constructor
  · decide
  · decide

/-- Lookup in a Go map built by successive inserts keyed on field name: the
last insert wins (`storedFieldMap[f.Name] = f` overwrites). -/
def lookupField (fs : List FieldState) (n : String) : Option FieldState :=
  fs.reverse.find? fun f => f.Name == n

/-- Membership test of `currentFieldMap` (only presence is ever used). -/
def containsFieldInfo (fs : List FieldInfo) (n : String) : Bool :=
  fs.any fun f => f.Name == n

/-- Lookup of `storedModels[current.Name]`; the stored-model map is an
association list, last binding wins. -/
def mapGetModel (ms : List (String × ModelState)) (n : String) : Option ModelState :=
  (ms.reverse.find? fun p => p.1 == n).map Prod.snd

/-- `MigrationChanges` from `cmd/migration_changes.go`.  The three Go maps
keyed by model name are association lists built by `multiAdd`, which appends
to the entry of an existing key, so the number of entries matches Go
`len`. -/
structure MigrationChanges where
  NewModels : List ModelInfo
  DeletedModels : List String
  NewFields : List (String × List FieldInfo)
  DeletedFields : List (String × List FieldInfo)
  ModifiedFields : List (String × List FieldInfo)
deriving DecidableEq

/-- `changes.M[k] = append(changes.M[k], v)` on a name-keyed Go map. -/
def multiAdd (m : List (String × List FieldInfo)) (k : String) (v : FieldInfo) :
    List (String × List FieldInfo) :=
  match m with
  | [] => [(k, [v])]
  | (kk, vs) :: rest =>
      if kk == k then (kk, vs ++ [v]) :: rest else (kk, vs) :: multiAdd rest k v

/-- Reading a name-keyed Go map of field lists (absent key reads as the
empty slice). -/
def lookupMulti (m : List (String × List FieldInfo)) (k : String) : List FieldInfo :=
  ((m.find? fun p => p.1 == k).map Prod.snd).getD []

/-- Repeated `multiAdd` with one key. -/
def multiAddAll (m : List (String × List FieldInfo)) (k : String) (vs : List FieldInfo) :
    List (String × List FieldInfo) :=
  vs.foldl (fun acc f => multiAdd acc k f) m

/-- One iteration of the loop over the current model fields in
`DetectAllChanges`: a field absent from the stored field map is new; a
present one whose type or tag changed is modified; otherwise nothing. -/
def processCurrentField (storedFields : List FieldState) (modelName : String)
    (c : MigrationChanges) (cf : FieldInfo) : MigrationChanges :=
  match lookupField storedFields cf.Name with
  | none => { c with NewFields := multiAdd c.NewFields modelName cf }
  | some sf =>
      if sf.Typ != cf.Typ || sf.Tag != cf.Tag then
        { c with ModifiedFields := multiAdd c.ModifiedFields modelName cf }
      else c

/-- One iteration of the loop over the stored fields in `DetectAllChanges`:
a stored field whose name is absent from the current fields is deleted,
rebuilt as a `FieldInfo` with zero-value `IsPointer`. -/
def processDeletedField (currentFields : List FieldInfo) (modelName : String)
    (c : MigrationChanges) (sf : FieldState) : MigrationChanges :=
  if containsFieldInfo currentFields sf.Name then c
  else
    { c with DeletedFields := multiAdd c.DeletedFields modelName ⟨sf.Name, sf.Typ, sf.Tag, false⟩ }

/-- Per-model step of `DetectAllChanges`: a current model absent from the
stored state is wholly new; otherwise its fields are diffed name-keyed in
both directions. -/
def processModel (storedModels : List (String × ModelState)) (c : MigrationChanges)
    (current : ModelInfo) : MigrationChanges :=
  match mapGetModel storedModels current.Name with
  | none => { c with NewModels := c.NewModels ++ [current] }
  | some stored =>
      stored.Fields.foldl (processDeletedField current.Fields current.Name)
        (current.Fields.foldl (processCurrentField stored.Fields current.Name) c)

/-- The fresh `MigrationChanges` value `DetectAllChanges` starts from. -/
def emptyChanges : MigrationChanges :=
  { NewModels := [], DeletedModels := [], NewFields := [], DeletedFields := [],
    ModifiedFields := [] }

/-- `DetectAllChanges` from `cmd/migration_changes.go`, with the
`LoadMigrationState` result passed explicitly: `stored` is
`state.Apps[appName]` (`none` when the app never recorded state, in which
case every current model is new).  The deleted-model loop iterates over the
stored-model map in association-list order (Go map order is arbitrary). -/
def DetectAllChanges (stored : Option AppMigrationState)
    (currentModels : List ModelInfo) : MigrationChanges :=
  match stored with
  | none => { emptyChanges with NewModels := currentModels }
  | some app =>
      let c1 := currentModels.foldl (processModel app.Models) emptyChanges
      { c1 with DeletedModels := c1.DeletedModels ++
          ((app.Models.map Prod.fst).filter fun n =>
            !(currentModels.any fun m => m.Name == n)) }

/-- `MigrationChanges.HasChanges`. -/
def HasChanges (c : MigrationChanges) : Prop :=
  0 < c.NewModels.length ∨ 0 < c.DeletedModels.length ∨ 0 < c.NewFields.length ∨
    0 < c.DeletedFields.length ∨ 0 < c.ModifiedFields.length

instance instDecidableHasChanges (c : MigrationChanges) : Decidable (HasChanges c) := by
  unfold HasChanges
  infer_instance

/-- `MigrationChanges.HasDestructiveChanges`. -/
def HasDestructiveChanges (c : MigrationChanges) : Prop :=
  0 < c.DeletedModels.length ∨ 0 < c.DeletedFields.length

instance instDecidableHasDestructive (c : MigrationChanges) :
    Decidable (HasDestructiveChanges c) := by
  unfold HasDestructiveChanges
  infer_instance

/-- The current fields the current-field loop classifies as new. -/
def newFieldsOf (storedFields : List FieldState) (cfs : List FieldInfo) : List FieldInfo :=
  cfs.filter fun cf => (lookupField storedFields cf.Name).isNone

/-- The current fields the current-field loop classifies as modified. -/
def modifiedFieldsOf (storedFields : List FieldState) (cfs : List FieldInfo) : List FieldInfo :=
  cfs.filter fun cf =>
    match lookupField storedFields cf.Name with
    | none => false
    | some sf => sf.Typ != cf.Typ || sf.Tag != cf.Tag

/-- The stored fields the stored-field loop classifies as deleted. -/
def deletedFieldsOf (currentFields : List FieldInfo) (sfs : List FieldState) : List FieldInfo :=
  (sfs.filter fun sf => !(containsFieldInfo currentFields sf.Name)).map
    fun sf => (⟨sf.Name, sf.Typ, sf.Tag, false⟩ : FieldInfo)

theorem foldl_processCurrentField (sfs : List FieldState) (mn : String) :
    ∀ (cfs : List FieldInfo) (c : MigrationChanges),
      cfs.foldl (processCurrentField sfs mn) c =
        { c with NewFields := multiAddAll c.NewFields mn (newFieldsOf sfs cfs),
                 ModifiedFields := multiAddAll c.ModifiedFields mn (modifiedFieldsOf sfs cfs) } := by
  intro cfs
  induction cfs with
  | nil => intro c; simp [newFieldsOf, modifiedFieldsOf, multiAddAll]
  | cons cf rest ih =>
    intro c
    cases hlook : lookupField sfs cf.Name with
    | none =>
      have hstep : processCurrentField sfs mn c cf =
          { c with NewFields := multiAdd c.NewFields mn cf } := by
        simp [processCurrentField, hlook]
      simp only [List.foldl_cons, hstep, ih]
      simp [newFieldsOf, modifiedFieldsOf, multiAddAll, List.filter_cons, hlook]
    | some sf =>
      by_cases hmod : (sf.Typ != cf.Typ || sf.Tag != cf.Tag) = true
      · have hstep : processCurrentField sfs mn c cf =
            { c with ModifiedFields := multiAdd c.ModifiedFields mn cf } := by
          simp [processCurrentField, hlook, hmod]
        simp only [List.foldl_cons, hstep, ih]
        simp [newFieldsOf, modifiedFieldsOf, multiAddAll, List.filter_cons, hlook, hmod]
      · have hstep : processCurrentField sfs mn c cf = c := by
          simp [processCurrentField, hlook]
          simp at hmod
          simp [hmod.1, hmod.2]
        simp only [List.foldl_cons, hstep, ih]
        simp [newFieldsOf, modifiedFieldsOf, List.filter_cons, hlook, hmod]

theorem foldl_processDeletedField (cfs : List FieldInfo) (mn : String) :
    ∀ (sfs : List FieldState) (c : MigrationChanges),
      sfs.foldl (processDeletedField cfs mn) c =
        { c with DeletedFields := multiAddAll c.DeletedFields mn (deletedFieldsOf cfs sfs) } := by
  intro sfs
  induction sfs with
  | nil => intro c; simp [deletedFieldsOf, multiAddAll]
  | cons sf rest ih =>
    intro c
    by_cases hin : containsFieldInfo cfs sf.Name = true
    · have hstep : processDeletedField cfs mn c sf = c := by
        simp [processDeletedField, hin]
      simp only [List.foldl_cons, hstep, ih]
      simp [deletedFieldsOf, List.filter_cons, hin]
    · have hstep : processDeletedField cfs mn c sf =
          { c with DeletedFields := multiAdd c.DeletedFields mn ⟨sf.Name, sf.Typ, sf.Tag, false⟩ } := by
        simp [processDeletedField, hin]
      simp only [List.foldl_cons, hstep, ih]
      simp [deletedFieldsOf, multiAddAll, List.filter_cons, hin]

theorem lookupField_eq_none_iff (sfs : List FieldState) (n : String) :
    lookupField sfs n = none ↔ n ∉ sfs.map FieldState.Name := by
  unfold lookupField
  rw [List.find?_eq_none]
  constructor
  · intro h hmem
    rcases List.mem_map.mp hmem with ⟨f, hf, hname⟩
    exact h f (List.mem_reverse.mpr hf) (by simp [hname])
  · intro h f hf hbeq
    have hn : f.Name = n := by simpa using hbeq
    exact h (List.mem_map.mpr ⟨f, List.mem_reverse.mp hf, hn⟩)

theorem lookupField_isNone_false {sfs : List FieldState} {n : String}
    (h : n ∈ sfs.map FieldState.Name) : (lookupField sfs n).isNone = false := by
  cases hl : lookupField sfs n with
  | none => exact absurd h ((lookupField_eq_none_iff sfs n).mp hl)
  | some _ => rfl

theorem lookupField_isNone_true {sfs : List FieldState} {n : String}
    (h : n ∉ sfs.map FieldState.Name) : (lookupField sfs n).isNone = true := by
  rw [(lookupField_eq_none_iff sfs n).mpr h]
  rfl

theorem containsFieldInfo_iff (fs : List FieldInfo) (n : String) :
    containsFieldInfo fs n = true ↔ n ∈ fs.map FieldInfo.Name := by
  unfold containsFieldInfo
  rw [List.any_eq_true]
  constructor
  · rintro ⟨f, hf, hbeq⟩
    exact List.mem_map.mpr ⟨f, hf, by simpa using hbeq⟩
  · intro h
    rcases List.mem_map.mp h with ⟨f, hf, hname⟩
    exact ⟨f, hf, by simp [hname]⟩

theorem find?_name_eq_some {l : List FieldState} (hnd : (l.map FieldState.Name).Nodup)
    {f : FieldState} (hf : f ∈ l) :
    l.find? (fun g => g.Name == f.Name) = some f := by
  induction l with
  | nil => cases hf
  | cons g gs ih =>
    have hnd' : (∀ x ∈ gs, ¬ x.Name = g.Name) ∧ (gs.map FieldState.Name).Nodup := by
      simpa using hnd
    rcases List.mem_cons.mp hf with h | h
    · subst h
      exact List.find?_cons_of_pos _ (by simp)
    · have hne : g.Name ≠ f.Name := fun he => hnd'.1 f h he.symm
      rw [List.find?_cons_of_neg _ (by simp [hne])]
      exact ih hnd'.2 h

theorem lookupField_mem {sfs : List FieldState} (hnd : (sfs.map FieldState.Name).Nodup)
    {f : FieldState} (hf : f ∈ sfs) : lookupField sfs f.Name = some f := by
  unfold lookupField
  apply find?_name_eq_some
  · rw [List.map_reverse]
    exact List.nodup_reverse.mpr hnd
  · exact List.mem_reverse.mpr hf

/-- Pointwise relation between a stored field snapshot and a current field:
same name, type and tag (what the diff compares). -/
def SameNTT (s : FieldState) (c : FieldInfo) : Prop :=
  s.Name = c.Name ∧ s.Typ = c.Typ ∧ s.Tag = c.Tag

theorem forall₂_names {l1 : List FieldState} {l2 : List FieldInfo}
    (h : List.Forall₂ SameNTT l1 l2) :
    l1.map FieldState.Name = l2.map FieldInfo.Name := by
  induction h with
  | nil => rfl
  | cons hab _ ih =>
    simp only [List.map_cons]
    rw [hab.1, ih]

theorem forall₂_mem_right {l1 : List FieldState} {l2 : List FieldInfo}
    (h : List.Forall₂ SameNTT l1 l2) {cf : FieldInfo} (hcf : cf ∈ l2) :
    ∃ s, s ∈ l1 ∧ SameNTT s cf := by
  induction h with
  | nil => cases hcf
  | @cons a b as bs hab _ ih =>
    rcases List.mem_cons.mp hcf with h1 | h1
    · subst h1
      exact ⟨a, List.mem_cons_self a as, hab⟩
    · rcases ih h1 with ⟨s, hs, hsam⟩
      exact ⟨s, List.mem_cons_of_mem _ hs, hsam⟩

theorem lookupMulti_multiAdd_self (m : List (String × List FieldInfo)) (k : String)
    (v : FieldInfo) : lookupMulti (multiAdd m k v) k = lookupMulti m k ++ [v] := by
  induction m with
  | nil => simp [multiAdd, lookupMulti]
  | cons p rest ih =>
    obtain ⟨kk, vs⟩ := p
    by_cases h : kk = k
    · subst h
      simp [multiAdd, lookupMulti]
    · have hb : (kk == k) = false := by simp [h]
      simp only [multiAdd, hb, Bool.false_eq_true, if_false]
      simpa [lookupMulti, List.find?, hb] using ih

theorem lookupMulti_multiAdd_ne (m : List (String × List FieldInfo)) {k kk : String}
    (h : kk ≠ k) (v : FieldInfo) : lookupMulti (multiAdd m k v) kk = lookupMulti m kk := by
  induction m with
  | nil => simp [multiAdd, lookupMulti, Ne.symm h]
  | cons p rest ih =>
    obtain ⟨k0, vs⟩ := p
    by_cases h0 : k0 = k
    · subst h0
      have hb : (k0 == kk) = false := by simp [Ne.symm h]
      simp [multiAdd, lookupMulti, List.find?, hb]
    · have hb : (k0 == k) = false := by simp [h0]
      simp only [multiAdd, hb, Bool.false_eq_true, if_false]
      by_cases h1 : k0 = kk
      · subst h1
        simp [lookupMulti, List.find?]
      · have hb1 : (k0 == kk) = false := by simp [h1]
        simpa [lookupMulti, List.find?, hb1] using ih

theorem lookupMulti_multiAddAll_self (k : String) :
    ∀ (vs : List FieldInfo) (m : List (String × List FieldInfo)),
      lookupMulti (multiAddAll m k vs) k = lookupMulti m k ++ vs := by
  intro vs
  induction vs with
  | nil => intro m; simp [multiAddAll]
  | cons v rest ih =>
    intro m
    have : multiAddAll m k (v :: rest) = multiAddAll (multiAdd m k v) k rest := rfl
    rw [this, ih, lookupMulti_multiAdd_self]
    simp

theorem lookupMulti_multiAddAll_ne {k kk : String} (h : kk ≠ k) :
    ∀ (vs : List FieldInfo) (m : List (String × List FieldInfo)),
      lookupMulti (multiAddAll m k vs) kk = lookupMulti m kk := by
  intro vs
  induction vs with
  | nil => intro m; simp [multiAddAll]
  | cons v rest ih =>
    intro m
    have heq : multiAddAll m k (v :: rest) = multiAddAll (multiAdd m k v) k rest := rfl
    rw [heq, ih, lookupMulti_multiAdd_ne m h]

/-- Per-model contribution of the diff to the three field maps: nothing for
a wholly new model, else (new, modified, deleted). -/
def fieldContribution (sm : List (String × ModelState)) (m : ModelInfo) :
    List FieldInfo × List FieldInfo × List FieldInfo :=
  match mapGetModel sm m.Name with
  | none => ([], [], [])
  | some s => (newFieldsOf s.Fields m.Fields, modifiedFieldsOf s.Fields m.Fields,
      deletedFieldsOf m.Fields s.Fields)

theorem foldl_processModel_lookups (sm : List (String × ModelState)) (mn : String) :
    ∀ (models : List ModelInfo) (c : MigrationChanges),
      lookupMulti ((models.foldl (processModel sm) c).NewFields) mn =
        lookupMulti c.NewFields mn ++
          ((models.filter fun m => m.Name == mn).map
            fun m => (fieldContribution sm m).1).flatten ∧
      lookupMulti ((models.foldl (processModel sm) c).ModifiedFields) mn =
        lookupMulti c.ModifiedFields mn ++
          ((models.filter fun m => m.Name == mn).map
            fun m => (fieldContribution sm m).2.1).flatten ∧
      lookupMulti ((models.foldl (processModel sm) c).DeletedFields) mn =
        lookupMulti c.DeletedFields mn ++
          ((models.filter fun m => m.Name == mn).map
            fun m => (fieldContribution sm m).2.2).flatten := by
  intro models
  induction models with
  | nil => intro c; simp
  | cons m rest ih =>
    intro c
    rcases ih (processModel sm c m) with ⟨ihn, ihm, ihd⟩
    cases hget : mapGetModel sm m.Name with
    | none =>
      have hstep : processModel sm c m = { c with NewModels := c.NewModels ++ [m] } := by
        simp [processModel, hget]
      have hcontrib : fieldContribution sm m = ([], [], []) := by
        simp [fieldContribution, hget]
      by_cases hname : m.Name = mn
      · simp only [List.foldl_cons, List.filter_cons, hname, beq_self_eq_true, if_true,
          List.map_cons, List.flatten_cons, hcontrib]
        rw [ihn, ihm, ihd]
        simp [hstep]
      · have hb : (m.Name == mn) = false := by simp [hname]
        simp only [List.foldl_cons, List.filter_cons, hb, Bool.false_eq_true, if_false]
        rw [ihn, ihm, ihd]
        simp [hstep]
    | some s =>
      have hstep : processModel sm c m =
          { c with
              NewFields := multiAddAll c.NewFields m.Name (newFieldsOf s.Fields m.Fields),
              ModifiedFields :=
                multiAddAll c.ModifiedFields m.Name (modifiedFieldsOf s.Fields m.Fields),
              DeletedFields :=
                multiAddAll c.DeletedFields m.Name (deletedFieldsOf m.Fields s.Fields) } := by
        simp only [processModel, hget]
        rw [foldl_processCurrentField, foldl_processDeletedField]
      have hcontrib : fieldContribution sm m =
          (newFieldsOf s.Fields m.Fields, modifiedFieldsOf s.Fields m.Fields,
            deletedFieldsOf m.Fields s.Fields) := by
        simp [fieldContribution, hget]
      by_cases hname : m.Name = mn
      · subst hname
        simp only [List.foldl_cons, List.filter_cons, beq_self_eq_true, if_true,
          List.map_cons, List.flatten_cons, hcontrib]
        rw [ihn, ihm, ihd]
        simp [hstep, lookupMulti_multiAddAll_self, List.append_assoc]
      · have hb : (m.Name == mn) = false := by simp [hname]
        simp only [List.foldl_cons, List.filter_cons, hb, Bool.false_eq_true, if_false]
        rw [ihn, ihm, ihd]
        have hne : mn ≠ m.Name := fun h => hname h.symm
        simp [hstep, lookupMulti_multiAddAll_ne hne]

/-- The three per-model field lists of `DetectAllChanges` read back through
the map interface. -/
theorem detect_lookups (stored : Option AppMigrationState) (models : List ModelInfo)
    (mn : String) :
    lookupMulti ((DetectAllChanges stored models).NewFields) mn =
      (match stored with
        | none => []
        | some app => ((models.filter fun m => m.Name == mn).map
            fun m => (fieldContribution app.Models m).1).flatten) ∧
    lookupMulti ((DetectAllChanges stored models).ModifiedFields) mn =
      (match stored with
        | none => []
        | some app => ((models.filter fun m => m.Name == mn).map
            fun m => (fieldContribution app.Models m).2.1).flatten) ∧
    lookupMulti ((DetectAllChanges stored models).DeletedFields) mn =
      (match stored with
        | none => []
        | some app => ((models.filter fun m => m.Name == mn).map
            fun m => (fieldContribution app.Models m).2.2).flatten) := by
  cases stored with
  | none => simp [DetectAllChanges, emptyChanges, lookupMulti]
  | some app =>
    rcases foldl_processModel_lookups app.Models mn models emptyChanges with ⟨hn, hm, hd⟩
    unfold DetectAllChanges
    simp only []
    refine ⟨?_, ?_, ?_⟩
    · simpa [emptyChanges, lookupMulti] using hn
    · simpa [emptyChanges, lookupMulti] using hm
    · simpa [emptyChanges, lookupMulti] using hd

theorem mem_newFieldsOf {sfs : List FieldState} {cfs : List FieldInfo} {f : FieldInfo}
    (h : f ∈ newFieldsOf sfs cfs) : f ∈ cfs ∧ lookupField sfs f.Name = none := by
  unfold newFieldsOf at h
  rcases List.mem_filter.mp h with ⟨h1, h2⟩
  exact ⟨h1, Option.isNone_iff_eq_none.mp h2⟩

theorem mem_modifiedFieldsOf {sfs : List FieldState} {cfs : List FieldInfo} {f : FieldInfo}
    (h : f ∈ modifiedFieldsOf sfs cfs) : f ∈ cfs ∧ lookupField sfs f.Name ≠ none := by
  unfold modifiedFieldsOf at h
  rcases List.mem_filter.mp h with ⟨h1, h2⟩
  refine ⟨h1, fun hnone => ?_⟩
  rw [hnone] at h2
  simp at h2

theorem mem_deletedFieldsOf {cfs : List FieldInfo} {sfs : List FieldState} {f : FieldInfo}
    (h : f ∈ deletedFieldsOf cfs sfs) :
    f.Name ∈ sfs.map FieldState.Name ∧ containsFieldInfo cfs f.Name = false := by
  unfold deletedFieldsOf at h
  rcases List.mem_map.mp h with ⟨sf, hsf, hf⟩
  rcases List.mem_filter.mp hsf with ⟨h1, h2⟩
  subst hf
  exact ⟨List.mem_map_of_mem _ h1, by simpa using h2⟩

/-- No field name lands in more than one of the per-model new / deleted /
modified lists of `DetectAllChanges` (current model names assumed pairwise
distinct, as produced from well-formed Go source). -/
theorem detect_disjoint (stored : Option AppMigrationState) (models : List ModelInfo)
    (mn fn : String) (hndm : (models.map ModelInfo.Name).Nodup) :
    ¬(fn ∈ (lookupMulti (DetectAllChanges stored models).NewFields mn).map FieldInfo.Name ∧
      fn ∈ (lookupMulti (DetectAllChanges stored models).DeletedFields mn).map FieldInfo.Name) ∧
    ¬(fn ∈ (lookupMulti (DetectAllChanges stored models).NewFields mn).map FieldInfo.Name ∧
      fn ∈ (lookupMulti (DetectAllChanges stored models).ModifiedFields mn).map FieldInfo.Name) ∧
    ¬(fn ∈ (lookupMulti (DetectAllChanges stored models).DeletedFields mn).map FieldInfo.Name ∧
      fn ∈ (lookupMulti (DetectAllChanges stored models).ModifiedFields mn).map FieldInfo.Name) := by
  rcases detect_lookups stored models mn with ⟨hn, hm, hd⟩
  cases stored with
  | none =>
    simp only [hn, hm, hd]
    simp
  | some app =>
    simp only [hn, hm, hd]
    have extract : ∀ (sel : ModelInfo → List FieldInfo),
        fn ∈ (((models.filter fun m => m.Name == mn).map fun m => sel m).flatten).map
          FieldInfo.Name →
        ∃ m f, m ∈ models ∧ m.Name = mn ∧ f ∈ sel m ∧ f.Name = fn := by
      intro sel hmem
      rcases List.mem_map.mp hmem with ⟨f, hf, hfname⟩
      rcases List.mem_flatten.mp hf with ⟨l, hl, hfl⟩
      rcases List.mem_map.mp hl with ⟨m, hmf, hml⟩
      rcases List.mem_filter.mp hmf with ⟨hmm, hmn⟩
      exact ⟨m, f, hmm, by simpa using hmn, hml ▸ hfl, hfname⟩
    refine ⟨?_, ?_, ?_⟩
    · rintro ⟨hA, hB⟩
      rcases extract _ hA with ⟨m1, f1, hm1, hn1, hf1, he1⟩
      rcases extract _ hB with ⟨m2, f2, hm2, hn2, hf2, he2⟩
      have hm12 : m1 = m2 :=
        List.inj_on_of_nodup_map hndm hm1 hm2 (hn1.trans hn2.symm)
      subst hm12
      cases hget : mapGetModel app.Models m1.Name with
      | none => simp [fieldContribution, hget] at hf1
      | some s =>
        simp only [fieldContribution, hget] at hf1 hf2
        rcases mem_newFieldsOf hf1 with ⟨_, hnone⟩
        rcases mem_deletedFieldsOf hf2 with ⟨hmem, _⟩
        rw [he2, ← he1] at hmem
        exact absurd hmem ((lookupField_eq_none_iff _ _).mp hnone)
    · rintro ⟨hA, hB⟩
      rcases extract _ hA with ⟨m1, f1, hm1, hn1, hf1, he1⟩
      rcases extract _ hB with ⟨m2, f2, hm2, hn2, hf2, he2⟩
      have hm12 : m1 = m2 :=
        List.inj_on_of_nodup_map hndm hm1 hm2 (hn1.trans hn2.symm)
      subst hm12
      cases hget : mapGetModel app.Models m1.Name with
      | none => simp [fieldContribution, hget] at hf1
      | some s =>
        simp only [fieldContribution, hget] at hf1 hf2
        rcases mem_newFieldsOf hf1 with ⟨_, hnone⟩
        rcases mem_modifiedFieldsOf hf2 with ⟨_, hsome⟩
        rw [he2, ← he1] at hsome
        exact hsome hnone
    · rintro ⟨hA, hB⟩
      rcases extract _ hA with ⟨m1, f1, hm1, hn1, hf1, he1⟩
      rcases extract _ hB with ⟨m2, f2, hm2, hn2, hf2, he2⟩
      have hm12 : m1 = m2 :=
        List.inj_on_of_nodup_map hndm hm1 hm2 (hn1.trans hn2.symm)
      subst hm12
      cases hget : mapGetModel app.Models m1.Name with
      | none => simp [fieldContribution, hget] at hf1
      | some s =>
        simp only [fieldContribution, hget] at hf1 hf2
        rcases mem_deletedFieldsOf hf1 with ⟨_, hnc⟩
        rcases mem_modifiedFieldsOf hf2 with ⟨hcur, _⟩
        have : f1.Name ∈ m1.Fields.map FieldInfo.Name := by
          rw [he1, ← he2]
          exact List.mem_map_of_mem _ hcur
        rw [(containsFieldInfo_iff _ _).mpr this] at hnc
        cases hnc

/-- C5: field diffing is name-keyed and each field lands in exactly one
category.  For a stored model and a current model identical except that one
field is renamed (same type and tag, new name unused), `DetectAllChanges`
reports exactly the renamed field as new and exactly the old field as
deleted, with no modified field; and in general (current model names
pairwise distinct) no field name appears in more than one of the per-model
new / deleted / modified lists. -/
theorem renameDetectedAsAddDelete
    (app : AppMigrationState) (storedM : ModelState) (currentM : ModelInfo)
    (pre post : List FieldState) (preC postC : List FieldInfo)
    (old : FieldState) (newF : FieldInfo)
    (happ : app.Models = [(currentM.Name, storedM)])
    (hsf : storedM.Fields = pre ++ old :: post)
    (hcf : currentM.Fields = preC ++ newF :: postC)
    (hpre : List.Forall₂ SameNTT pre preC)
    (hpost : List.Forall₂ SameNTT post postC)
    (htyp : old.Typ = newF.Typ) (htag : old.Tag = newF.Tag)
    (hne : newF.Name ≠ old.Name)
    (hnd : (storedM.Fields.map FieldState.Name).Nodup)
    (hnew : newF.Name ∉ storedM.Fields.map FieldState.Name) :
    DetectAllChanges (some app) [currentM] =
      { emptyChanges with
          NewFields := [(currentM.Name, [newF])],
          DeletedFields := [(currentM.Name, [⟨old.Name, old.Typ, old.Tag, false⟩])] } ∧
    (∀ (stored : Option AppMigrationState) (models : List ModelInfo) (mn fn : String),
      (models.map ModelInfo.Name).Nodup →
      ¬(fn ∈ (lookupMulti (DetectAllChanges stored models).NewFields mn).map FieldInfo.Name ∧
        fn ∈ (lookupMulti (DetectAllChanges stored models).DeletedFields mn).map
          FieldInfo.Name) ∧
      ¬(fn ∈ (lookupMulti (DetectAllChanges stored models).NewFields mn).map FieldInfo.Name ∧
        fn ∈ (lookupMulti (DetectAllChanges stored models).ModifiedFields mn).map
          FieldInfo.Name) ∧
      ¬(fn ∈ (lookupMulti (DetectAllChanges stored models).DeletedFields mn).map
          FieldInfo.Name ∧
        fn ∈ (lookupMulti (DetectAllChanges stored models).ModifiedFields mn).map
          FieldInfo.Name)) := by
  constructor
  · have hget : mapGetModel app.Models currentM.Name = some storedM := by
      rw [happ]
      simp [mapGetModel]
    have hnamesPre := forall₂_names hpre
    have hnamesPost := forall₂_names hpost
    have hcurNames : currentM.Fields.map FieldInfo.Name =
        pre.map FieldState.Name ++ newF.Name :: post.map FieldState.Name := by
      rw [hcf]
      simp only [List.map_append, List.map_cons]
      rw [← hnamesPre, ← hnamesPost]
    have hstNames : storedM.Fields.map FieldState.Name =
        pre.map FieldState.Name ++ old.Name :: post.map FieldState.Name := by
      rw [hsf]
      simp only [List.map_append, List.map_cons]
    have hndn : (pre.map FieldState.Name ++ old.Name :: post.map FieldState.Name).Nodup := by
      rw [← hstNames]
      exact hnd
    have hold_pre : old.Name ∉ pre.map FieldState.Name := by
      rcases List.nodup_append.mp hndn with ⟨_, _, hdisj⟩
      exact fun hm => hdisj hm (List.mem_cons_self _ _)
    have hold_post : old.Name ∉ post.map FieldState.Name := by
      rcases List.nodup_append.mp hndn with ⟨_, hnd2, _⟩
      exact (List.nodup_cons.mp hnd2).1
    have hpre_in : ∀ s ∈ pre, s ∈ storedM.Fields := by
      intro s hs
      rw [hsf]
      exact List.mem_append_left _ hs
    have hpost_in : ∀ s ∈ post, s ∈ storedM.Fields := by
      intro s hs
      rw [hsf]
      exact List.mem_append_right _ (List.mem_cons_of_mem _ hs)
    have hnewOf : newFieldsOf storedM.Fields currentM.Fields = [newF] := by
      unfold newFieldsOf
      rw [hcf, List.filter_append, List.filter_cons]
      have h1 : preC.filter (fun cf => (lookupField storedM.Fields cf.Name).isNone) = [] := by
        apply List.filter_eq_nil_iff.mpr
        intro cf hcfm
        rcases forall₂_mem_right hpre hcfm with ⟨s, hsmem, hsam⟩
        have hmem : cf.Name ∈ storedM.Fields.map FieldState.Name := by
          rw [← hsam.1]
          exact List.mem_map_of_mem _ (hpre_in s hsmem)
        simp [lookupField_isNone_false hmem]
      have h3 : postC.filter (fun cf => (lookupField storedM.Fields cf.Name).isNone) = [] := by
        apply List.filter_eq_nil_iff.mpr
        intro cf hcfm
        rcases forall₂_mem_right hpost hcfm with ⟨s, hsmem, hsam⟩
        have hmem : cf.Name ∈ storedM.Fields.map FieldState.Name := by
          rw [← hsam.1]
          exact List.mem_map_of_mem _ (hpost_in s hsmem)
        simp [lookupField_isNone_false hmem]
      rw [h1, h3]
      simp [lookupField_isNone_true hnew]
    have hmodOf : modifiedFieldsOf storedM.Fields currentM.Fields = [] := by
      unfold modifiedFieldsOf
      rw [hcf]
      apply List.filter_eq_nil_iff.mpr
      intro cf hm
      rcases List.mem_append.mp hm with hL | hR
      · rcases forall₂_mem_right hpre hL with ⟨s, hsmem, hsam⟩
        have hlook : lookupField storedM.Fields cf.Name = some s := by
          rw [← hsam.1]
          exact lookupField_mem hnd (hpre_in s hsmem)
        simp [hlook, hsam.2.1, hsam.2.2]
      · rcases List.mem_cons.mp hR with he | hpostm
        · subst he
          have hlook : lookupField storedM.Fields cf.Name = none :=
            (lookupField_eq_none_iff _ _).mpr hnew
          simp [hlook]
        · rcases forall₂_mem_right hpost hpostm with ⟨s, hsmem, hsam⟩
          have hlook : lookupField storedM.Fields cf.Name = some s := by
            rw [← hsam.1]
            exact lookupField_mem hnd (hpost_in s hsmem)
          simp [hlook, hsam.2.1, hsam.2.2]
    have hdelOf : deletedFieldsOf currentM.Fields storedM.Fields =
        [⟨old.Name, old.Typ, old.Tag, false⟩] := by
      unfold deletedFieldsOf
      rw [hsf, List.filter_append, List.filter_cons]
      have h1 : pre.filter (fun sf => !(containsFieldInfo currentM.Fields sf.Name)) = [] := by
        apply List.filter_eq_nil_iff.mpr
        intro s hs
        have hmem : s.Name ∈ currentM.Fields.map FieldInfo.Name := by
          rw [hcurNames]
          exact List.mem_append_left _ (List.mem_map_of_mem _ hs)
        simp [(containsFieldInfo_iff _ _).mpr hmem]
      have h3 : post.filter (fun sf => !(containsFieldInfo currentM.Fields sf.Name)) = [] := by
        apply List.filter_eq_nil_iff.mpr
        intro s hs
        have hmem : s.Name ∈ currentM.Fields.map FieldInfo.Name := by
          rw [hcurNames]
          exact List.mem_append_right _ (List.mem_cons_of_mem _ (List.mem_map_of_mem _ hs))
        simp [(containsFieldInfo_iff _ _).mpr hmem]
      have h2 : containsFieldInfo currentM.Fields old.Name = false := by
        cases hc : containsFieldInfo currentM.Fields old.Name with
        | false => rfl
        | true =>
          have := (containsFieldInfo_iff _ _).mp hc
          rw [hcurNames] at this
          rcases List.mem_append.mp this with hA | hB
          · exact absurd hA hold_pre
          · rcases List.mem_cons.mp hB with he | hC
            · exact absurd he.symm hne
            · exact absurd hC hold_post
      rw [h1, h3]
      simp [h2]
    have hc1 : List.foldl (processModel app.Models) emptyChanges [currentM] =
        { emptyChanges with
            NewFields := [(currentM.Name, [newF])],
            DeletedFields := [(currentM.Name, [⟨old.Name, old.Typ, old.Tag, false⟩])] } := by
      simp only [List.foldl_cons, List.foldl_nil, processModel, hget]
      rw [foldl_processCurrentField, foldl_processDeletedField]
      rw [hnewOf, hmodOf, hdelOf]
      simp [emptyChanges, multiAddAll, multiAdd]
    unfold DetectAllChanges
    simp only [hc1]
    rw [happ]
    simp [emptyChanges]
  · intro stored models mn fn hndm
    exact detect_disjoint stored models mn fn hndm

/-- Witness for C5: renaming `Email` to `Mail` in a one-model app is
reported as one new field plus one deleted field and nothing else. -/
theorem renameDetectedAsAddDeleteWitness :
    DetectAllChanges
        (some { LastHash := "h", LastMigration := "m1",
                Models := [("User",
                  { Name := "User", Hash := "uh",
                    Fields := [{ Name := "Name", Typ := "string", Tag := "" },
                               { Name := "Email", Typ := "string", Tag := "tag" }] })] })
        [{ Name := "User",
           Fields := [{ Name := "Name", Typ := "string", Tag := "", IsPointer := false },
                      { Name := "Mail", Typ := "string", Tag := "tag", IsPointer := false }],
           PackageName := "models", FilePath := "apps/blog/models.go" }] =
      { emptyChanges with
          NewFields := [("User",
            [{ Name := "Mail", Typ := "string", Tag := "tag", IsPointer := false }])],
          DeletedFields := [("User",
            [{ Name := "Email", Typ := "string", Tag := "tag", IsPointer := false }])] } := by
  have h := renameDetectedAsAddDelete
    { LastHash := "h", LastMigration := "m1",
      Models := [("User",
        { Name := "User", Hash := "uh",
          Fields := [{ Name := "Name", Typ := "string", Tag := "" },
                     { Name := "Email", Typ := "string", Tag := "tag" }] })] }
    { Name := "User", Hash := "uh",
      Fields := [{ Name := "Name", Typ := "string", Tag := "" },
                 { Name := "Email", Typ := "string", Tag := "tag" }] }
    { Name := "User",
      Fields := [{ Name := "Name", Typ := "string", Tag := "", IsPointer := false },
                 { Name := "Mail", Typ := "string", Tag := "tag", IsPointer := false }],
      PackageName := "models", FilePath := "apps/blog/models.go" }
    [{ Name := "Name", Typ := "string", Tag := "" }] []
    [{ Name := "Name", Typ := "string", Tag := "", IsPointer := false }] []
    { Name := "Email", Typ := "string", Tag := "tag" }
    { Name := "Mail", Typ := "string", Tag := "tag", IsPointer := false }
    rfl rfl rfl
    (List.Forall₂.cons (by exact ⟨rfl, rfl, rfl⟩) List.Forall₂.nil)
    List.Forall₂.nil
    rfl rfl (by decide) (by decide) (by decide)
  exact h.1

/-- The rune loop shared by `toSnakeCase` and `fieldToSnakeCase` in
`cmd/model_scanner.go`: insert an underscore before every interior
uppercase ASCII letter. -/
def snakeAux : Bool → List Char → List Char
  | _, [] => []
  | isFirst, c :: cs =>
    if isFirst = false ∧ 65 ≤ c.toNat ∧ c.toNat ≤ 90 then
      Char.ofNat 95 :: c :: snakeAux false cs
    else c :: snakeAux false cs

/-- `fieldToSnakeCase`: snake case without pluralization
(`strings.ToLower` lowercases each rune). -/
def fieldToSnakeCase (s : String) : String :=
  String.mk ((snakeAux true s.data).map Char.toLower)

/-- `strings.HasSuffix(t, "s")` for the one-character suffix: the last
character is `s`. -/
def endsInS (s : String) : Bool :=
  match s.data.getLast? with
  | some c => c == 's'
  | none => false

/-- `toSnakeCase`: snake case plus the GORM pluralization convention. -/
def toSnakeCase (s : String) : String :=
  let tableName := String.mk ((snakeAux true s.data).map Char.toLower)
  if endsInS tableName then tableName else tableName ++ "s"

/-- `strings.TrimSuffix(result, "\n")`: drop one trailing newline if
present. -/
def trimNewlineSuffix (s : String) : String :=
  match s.data.getLast? with
  | some c => if c = '\n' then String.mk s.data.dropLast else s
  | none => s

/-- `generateCreateTableCode` from the migration code generator. -/
def generateCreateTableCode (model : ModelInfo) : String :=
  "\t\ttype " ++ fieldToSnakeCase model.Name ++ " struct \x7b\n" ++
  "\t\t\tID        uint      `gorm:\"primarykey\"`\n" ++
  "\t\t\tCreatedAt time.Time\n" ++
  "\t\t\tUpdatedAt time.Time\n" ++
  "\t\t\tDeletedAt gorm.DeletedAt `gorm:\"index\"`\n" ++
  String.join (model.Fields.map fun f =>
    "\t\t\t" ++ f.Name ++ " " ++ f.Typ ++
      (if f.Tag == "" then "" else " " ++ f.Tag) ++ "\n") ++
  "\t\t\x7d\n" ++
  "\t\tif err := tx.Migrator().CreateTable(&" ++ fieldToSnakeCase model.Name ++
  "\x7b\x7d); err != nil \x7b\n" ++
  "\t\t\treturn err\n" ++
  "\t\t\x7d"

/-- `generateAddColumnCode` from the migration code generator. -/
def generateAddColumnCode (modelName : String) (f : FieldInfo) : String :=
  "\t\ttype " ++ fieldToSnakeCase modelName ++ " struct \x7b\n" ++
  "\t\t\t" ++ f.Name ++ " " ++ f.Typ ++
    (if f.Tag == "" then "" else " " ++ f.Tag) ++ "\n" ++
  "\t\t\x7d\n" ++
  "\t\tif err := tx.Migrator().AddColumn(&" ++ fieldToSnakeCase modelName ++
  "\x7b\x7d, \"" ++ f.Name ++ "\"); err != nil \x7b\n" ++
  "\t\t\treturn err\n" ++
  "\t\t\x7d"

/-- `generateDropColumnCode` from the migration code generator. -/
def generateDropColumnCode (modelName : String) (f : FieldInfo) : String :=
  "\t\ttype " ++ fieldToSnakeCase modelName ++ " struct \x7b\n" ++
  "\t\t\t" ++ f.Name ++ " " ++ f.Typ ++
    (if f.Tag == "" then "" else " " ++ f.Tag) ++ "\n" ++
  "\t\t\x7d\n" ++
  "\t\tif err := tx.Migrator().DropColumn(&" ++ fieldToSnakeCase modelName ++
  "\x7b\x7d, \"" ++ f.Name ++ "\"); err != nil \x7b\n" ++
  "\t\t\treturn err\n" ++
  "\t\t\x7d"

/-- `generateDropTableCode` from the migration code generator. -/
def generateDropTableCode (modelName : String) : String :=
  "\t\tif err := tx.Migrator().DropTable(\"" ++ toSnakeCase modelName ++
  "\"); err != nil \x7b\n\t\t\treturn err\n\t\t\x7d"

/-- `GenerateMigrationCodeFromChanges`: create new tables, add new columns,
drop deleted columns, drop deleted tables.  Modified fields are never
read. -/
def GenerateMigrationCodeFromChanges (changes : MigrationChanges) : String :=
  let code :=
    String.join (changes.NewModels.map fun m => generateCreateTableCode m ++ "\n") ++
    String.join (changes.NewFields.map fun p =>
      String.join (p.2.map fun f => generateAddColumnCode p.1 f ++ "\n")) ++
    String.join (changes.DeletedFields.map fun p =>
      String.join (p.2.map fun f => generateDropColumnCode p.1 f ++ "\n")) ++
    String.join (changes.DeletedModels.map fun n => generateDropTableCode n ++ "\n")
  if code == "" then "\t\treturn nil"
  else trimNewlineSuffix code ++ "\n\t\treturn nil"

/-- `GenerateRollbackCodeFromChanges`: drop created tables, drop added
columns, re-add dropped columns, and leave a TODO for dropped tables.
Modified fields are never read. -/
def GenerateRollbackCodeFromChanges (changes : MigrationChanges) : String :=
  let code :=
    String.join (changes.NewModels.map fun m => generateDropTableCode m.Name ++ "\n") ++
    String.join (changes.NewFields.map fun p =>
      String.join (p.2.map fun f => generateDropColumnCode p.1 f ++ "\n")) ++
    String.join (changes.DeletedFields.map fun p =>
      String.join (p.2.map fun f => generateAddColumnCode p.1 f ++ "\n")) ++
    String.join (changes.DeletedModels.map fun n =>
      "\t\t// TODO: Recreate table " ++ n ++ "\n")
  if code == "" then "\t\treturn nil"
  else trimNewlineSuffix code ++ "\n\t\treturn nil"

/-- A wall-clock instant at the second granularity that
`time.Now().Format("20060102150405")` renders. -/
structure Timestamp where
  year : Nat
  month : Nat
  day : Nat
  hour : Nat
  minute : Nat
  second : Nat
deriving DecidableEq

/-- Zero-padded `k`-digit decimal rendering, most significant digit
first. -/
def padNum : Nat → Nat → List Char
  | 0, _ => []
  | k + 1, n => Nat.digitChar (n / 10 ^ k) :: padNum k (n % 10 ^ k)

/-- The layout `20060102150405`: four-digit year then two digits each for
month, day, hour, minute, second. -/
def formatTimestamp (t : Timestamp) : String :=
  String.mk (padNum 4 t.year ++ padNum 2 t.month ++ padNum 2 t.day ++
    padNum 2 t.hour ++ padNum 2 t.minute ++ padNum 2 t.second)

/-- The ranges `time.Time` components live in (year capped at four
digits as the layout renders it). -/
def ValidTimestamp (t : Timestamp) : Prop :=
  t.year ≤ 9999 ∧ 1 ≤ t.month ∧ t.month ≤ 12 ∧ 1 ≤ t.day ∧ t.day ≤ 31 ∧
    t.hour ≤ 23 ∧ t.minute ≤ 59 ∧ t.second ≤ 59

instance instDecidableValidTimestamp (t : Timestamp) : Decidable (ValidTimestamp t) := by
  unfold ValidTimestamp
  infer_instance

/-- The numeric key `yyyymmddhhmmss`; wall-clock order at second
granularity. -/
def tsKey (t : Timestamp) : Nat :=
  ((((t.year * 100 + t.month) * 100 + t.day) * 100 + t.hour) * 100 + t.minute) * 100 +
    t.second

/-- `strings.ToLower(strings.ReplaceAll(name, " ", "_"))`, rune by rune
(the pattern is the single character space). -/
def cleanMigrationName (name : String) : String :=
  String.mk (name.data.map fun c => if c = ' ' then '_' else c.toLower)

/-- The migration identifier `GenerateMigrationForApp` builds: the
formatted timestamp, suffixed with the cleaned name when one was given. -/
def migrationID (t : Timestamp) (name : String) : String :=
  if name == "" then formatTimestamp t
  else formatTimestamp t ++ "_" ++ cleanMigrationName name

/-- `strings.ToLower` over the confirmation response. -/
def lowerResponse (s : String) : String :=
  String.mk (s.data.map Char.toLower)

/-- State of `apps/<app>/models.go` as `ScanModels` sees it: absent,
present but unparsable, or parsed into the own-field model descriptors its
AST walk extracts (structs that embed `BaseModel`). -/
inductive ModelsFile where
  | missing
  | unparsable (msg : String)
  | parsed (models : List ModelInfo)

/-- `ScanModels` from `cmd/model_scanner.go`: a missing file is an empty
model list with nil error; a parse failure is a descriptive error. -/
def ScanModels (file : ModelsFile) : Except String (List ModelInfo) :=
  match file with
  | .missing => .ok []
  | .unparsable msg => .error ("failed to parse models.go: " ++ msg)
  | .parsed models => .ok models

/-- Environment a `GenerateMigrationForApp` call runs in: the models file,
the outcome of loading the persisted state for this app, the confirmation
response `fmt.Scanln` reads (empty when input is closed), the wall clock,
and whether each filesystem effect would succeed. -/
structure GenEnv where
  modelsFile : ModelsFile
  loadState : Except String (Option AppMigrationState)
  response : String
  now : Timestamp
  mkdirOk : Bool
  writeOk : Bool
  saveOk : Bool

/-- Observable outcome of `GenerateMigrationForApp`: the returned error,
the migration file written (path and content), whether
`UpdateMigrationState` persisted the new state, and the migration ID of a
written file. -/
structure GenOutcome where
  err : Option String
  fileWritten : Option (String × String)
  stateSaved : Bool
  migID : Option String
deriving DecidableEq

/-- The migration file template of `GenerateMigrationForApp` (the
`fmt.Sprintf` at its end). -/
def migrationTemplate (timeImport mid migrateCode rollbackCode : String) : String :=
  "package migrations\n\nimport (\n" ++ timeImport ++
  "\t\"github.com/go-gormigrate/gormigrate/v2\"\n" ++
  "\t\"github.com/ishubhamsingh2e/bourbon/bourbon/core\"\n" ++
  "\t\"gorm.io/gorm\"\n)\n\nfunc init() \x7b\n" ++
  "\tcore.RegisterGormigrateMigration(&gormigrate.Migration\x7b\n" ++
  "\t\tID: \"" ++ mid ++ "\",\n" ++
  "\t\tMigrate: func(tx *gorm.DB) error \x7b\n" ++ migrateCode ++ "\n\t\t\x7d,\n" ++
  "\t\tRollback: func(tx *gorm.DB) error \x7b\n" ++ rollbackCode ++ "\n\t\t\x7d,\n" ++
  "\t\x7d)\n\x7d\n"

/-- `GenerateMigrationForApp` from `cmd/migrations.go`, step by step: scan
models (abort on error), reject an empty model set, detect changes against
the loaded state (abort on load error), succeed silently when nothing
changed, gate destructive change sets on a confirmation whose lowercase
form must be exactly `y`, create the migrations directory, write the
migration file, and finally persist the updated state; a failure of that
last write aborts with an error even though the file is already on disk.
The filename always equals the migration ID plus `.go` (both branches of
the Go code build them from the same timestamp and cleaned name).  Failure
messages carry the Go prefix without the wrapped inner error, which the
environment does not model. -/
def GenerateMigrationForApp (appName name : String) (env : GenEnv) : GenOutcome :=
  match ScanModels env.modelsFile with
  | .error e =>
      { err := some ("failed to scan models: " ++ e), fileWritten := none,
        stateSaved := false, migID := none }
  | .ok models =>
    if models.length = 0 then
      { err := some ("no models found in apps/" ++ appName ++
          "/models.go - create models first"), fileWritten := none,
        stateSaved := false, migID := none }
    else
      match env.loadState with
      | .error e =>
          { err := some ("failed to detect changes: " ++ e), fileWritten := none,
            stateSaved := false, migID := none }
      | .ok stored =>
        let changes := DetectAllChanges stored models
        if ¬ HasChanges changes then
          { err := none, fileWritten := none, stateSaved := false, migID := none }
        else if HasDestructiveChanges changes ∧ ¬ lowerResponse env.response = "y" then
          { err := none, fileWritten := none, stateSaved := false, migID := none }
        else if env.mkdirOk = false then
          { err := some "failed to create migrations directory", fileWritten := none,
            stateSaved := false, migID := none }
        else
          let mid := migrationID env.now name
          let filePath := "apps/" ++ appName ++ "/migrations/" ++ mid ++ ".go"
          let migrateCode := GenerateMigrationCodeFromChanges changes
          let rollbackCode := GenerateRollbackCodeFromChanges changes
          let timeImport :=
            if 0 < changes.NewModels.length then "\t\"time\"\n\n" else ""
          let content := migrationTemplate timeImport mid migrateCode rollbackCode
          if env.writeOk = false then
            { err := some "failed to write migration file", fileWritten := none,
              stateSaved := false, migID := none }
          else if env.saveOk = false then
            { err := some "failed to update migration state",
              fileWritten := some (filePath, content), stateSaved := false,
              migID := some mid }
          else
            { err := none, fileWritten := some (filePath, content), stateSaved := true,
              migID := some mid }

/-- C3: the destructive-change gate is fail-closed.  Whenever the detected
change set is destructive and the confirmation response does not lowercase
to exactly `y` (including the empty default of a non-interactive read),
`GenerateMigrationForApp` returns nil having written no migration file and
saved no state. -/
theorem destructiveGateFailClosed (appName name : String) (env : GenEnv)
    (models : List ModelInfo) (stored : Option AppMigrationState)
    (hscan : ScanModels env.modelsFile = .ok models)
    (hlen : 0 < models.length)
    (hload : env.loadState = .ok stored)
    (hdestr : HasDestructiveChanges (DetectAllChanges stored models))
    (hresp : ¬ lowerResponse env.response = "y") :
    GenerateMigrationForApp appName name env =
      { err := none, fileWritten := none, stateSaved := false, migID := none } := by
  have hch : HasChanges (DetectAllChanges stored models) := by
    rcases hdestr with h | h
    · exact Or.inr (Or.inl h)
    · exact Or.inr (Or.inr (Or.inr (Or.inl h)))
  have hne : ¬ (models.length = 0) := by omega
  simp only [GenerateMigrationForApp, hscan, hload]
  rw [if_neg hne, if_neg (not_not_intro hch), if_pos ⟨hdestr, hresp⟩]

/-- Witness for C3: deleting the only model and answering `n`. -/
theorem destructiveGateFailClosedWitness :
    GenerateMigrationForApp "blog" ""
        { modelsFile := .parsed
            [{ Name := "User", Fields := [], PackageName := "models",
               FilePath := "apps/blog/models.go" }],
          loadState := .ok (some
            { LastHash := "h", LastMigration := "m",
              Models := [("User",
                { Name := "User", Hash := "uh",
                  Fields := [{ Name := "Age", Typ := "int", Tag := "" }] }),
                ("Gone", { Name := "Gone", Hash := "gh", Fields := [] })] }),
          response := "n", now := ⟨2024, 1, 2, 3, 4, 5⟩,
          mkdirOk := true, writeOk := true, saveOk := true } =
      { err := none, fileWritten := none, stateSaved := false, migID := none } := by
  exact destructiveGateFailClosed "blog" ""
    { modelsFile := .parsed
        [{ Name := "User", Fields := [], PackageName := "models",
           FilePath := "apps/blog/models.go" }],
      loadState := .ok (some
        { LastHash := "h", LastMigration := "m",
          Models := [("User",
            { Name := "User", Hash := "uh",
              Fields := [{ Name := "Age", Typ := "int", Tag := "" }] }),
            ("Gone", { Name := "Gone", Hash := "gh", Fields := [] })] }),
      response := "n", now := ⟨2024, 1, 2, 3, 4, 5⟩,
      mkdirOk := true, writeOk := true, saveOk := true }
    [{ Name := "User", Fields := [], PackageName := "models",
       FilePath := "apps/blog/models.go" }]
    (some { LastHash := "h", LastMigration := "m",
            Models := [("User",
              { Name := "User", Hash := "uh",
                Fields := [{ Name := "Age", Typ := "int", Tag := "" }] }),
              ("Gone", { Name := "Gone", Hash := "gh", Fields := [] })] })
    rfl (by decide) rfl (by decide) (by decide)

/-- C1 (amended): when the migration file write succeeds but persisting the
state fails, `GenerateMigrationForApp` aborts: it returns the
state-update error (not nil), while the already-written migration file
remains on disk. -/
theorem stateWriteFailureAborts (appName name : String) (env : GenEnv)
    (models : List ModelInfo) (stored : Option AppMigrationState)
    (hscan : ScanModels env.modelsFile = .ok models)
    (hlen : 0 < models.length)
    (hload : env.loadState = .ok stored)
    (hch : HasChanges (DetectAllChanges stored models))
    (hgate : HasDestructiveChanges (DetectAllChanges stored models) →
      lowerResponse env.response = "y")
    (hmkdir : env.mkdirOk = true)
    (hwrite : env.writeOk = true)
    (hsave : env.saveOk = false) :
    (GenerateMigrationForApp appName name env).err = some "failed to update migration state" ∧
    (GenerateMigrationForApp appName name env).fileWritten ≠ none ∧
    (GenerateMigrationForApp appName name env).stateSaved = false := by
  have hne : ¬ (models.length = 0) := by omega
  have hgate2 : ¬ (HasDestructiveChanges (DetectAllChanges stored models) ∧
      ¬ lowerResponse env.response = "y") := by
    rintro ⟨h1, h2⟩
    exact h2 (hgate h1)
  have hmk : ¬ (env.mkdirOk = false) := by simp [hmkdir]
  have hwr : ¬ (env.writeOk = false) := by simp [hwrite]
  simp only [GenerateMigrationForApp, hscan, hload]
  rw [if_neg hne, if_neg (not_not_intro hch), if_neg hgate2, if_neg hmk, if_neg hwr,
    if_pos hsave]
  exact ⟨rfl, by simp, rfl⟩

/-- Witness for C1 (amended): one new model, write succeeds, state save
fails. -/
theorem stateWriteFailureAbortsWitness :
    (GenerateMigrationForApp "blog" "add_users"
        { modelsFile := .parsed
            [{ Name := "User", Fields := [], PackageName := "models",
               FilePath := "apps/blog/models.go" }],
          loadState := .ok none, response := "", now := ⟨2024, 1, 2, 3, 4, 5⟩,
          mkdirOk := true, writeOk := true, saveOk := false }).err =
      some "failed to update migration state" ∧
    (GenerateMigrationForApp "blog" "add_users"
        { modelsFile := .parsed
            [{ Name := "User", Fields := [], PackageName := "models",
               FilePath := "apps/blog/models.go" }],
          loadState := .ok none, response := "", now := ⟨2024, 1, 2, 3, 4, 5⟩,
          mkdirOk := true, writeOk := true, saveOk := false }).fileWritten ≠ none ∧
    (GenerateMigrationForApp "blog" "add_users"
        { modelsFile := .parsed
            [{ Name := "User", Fields := [], PackageName := "models",
               FilePath := "apps/blog/models.go" }],
          loadState := .ok none, response := "", now := ⟨2024, 1, 2, 3, 4, 5⟩,
          mkdirOk := true, writeOk := true, saveOk := false }).stateSaved = false := by
  exact stateWriteFailureAborts "blog" "add_users"
    { modelsFile := .parsed
        [{ Name := "User", Fields := [], PackageName := "models",
           FilePath := "apps/blog/models.go" }],
      loadState := .ok none, response := "", now := ⟨2024, 1, 2, 3, 4, 5⟩,
      mkdirOk := true, writeOk := true, saveOk := false }
    [{ Name := "User", Fields := [], PackageName := "models",
       FilePath := "apps/blog/models.go" }]
    none rfl (by decide) rfl (by decide) (by intro h; exact absurd h (by decide))
    rfl rfl rfl

/-- C1 counterexample: in an execution where the migration file write
succeeds and the state update fails, `GenerateMigrationForApp` does not
return nil (the claim said the failure is only warned about), even though
the file was written. -/
theorem stateWriteFailureNotNilCounterexample :
    (GenerateMigrationForApp "blog" ""
        { modelsFile := .parsed
            [{ Name := "User", Fields := [], PackageName := "models",
               FilePath := "apps/blog/models.go" }],
          loadState := .ok none, response := "", now := ⟨2024, 1, 2, 3, 4, 5⟩,
          mkdirOk := true, writeOk := true, saveOk := false }).fileWritten ≠ none ∧
    (GenerateMigrationForApp "blog" ""
        { modelsFile := .parsed
            [{ Name := "User", Fields := [], PackageName := "models",
               FilePath := "apps/blog/models.go" }],
          loadState := .ok none, response := "", now := ⟨2024, 1, 2, 3, 4, 5⟩,
          mkdirOk := true, writeOk := true, saveOk := false }).err ≠ none := by
  constructor
  · decide
  · decide

/-- C9: modified fields produce no schema-altering code.  Both generators
are unchanged when the modified-field map is emptied; a change set holding
only modified fields generates `return nil` bodies for both directions; yet
such a change set still counts as a change and a run reaching it writes a
migration file. -/
theorem modifiedFieldsGenerateNoCode :
    (∀ c : MigrationChanges,
      GenerateMigrationCodeFromChanges { c with ModifiedFields := [] } =
        GenerateMigrationCodeFromChanges c ∧
      GenerateRollbackCodeFromChanges { c with ModifiedFields := [] } =
        GenerateRollbackCodeFromChanges c) ∧
    (∀ c : MigrationChanges,
      c.NewModels = [] → c.DeletedModels = [] → c.NewFields = [] → c.DeletedFields = [] →
      0 < c.ModifiedFields.length →
      GenerateMigrationCodeFromChanges c = "\t\treturn nil" ∧
      GenerateRollbackCodeFromChanges c = "\t\treturn nil" ∧ HasChanges c) ∧
    (∀ (appName name : String) (env : GenEnv) (models : List ModelInfo)
        (stored : Option AppMigrationState),
      ScanModels env.modelsFile = .ok models → 0 < models.length →
      env.loadState = .ok stored →
      (DetectAllChanges stored models).NewModels = [] →
      (DetectAllChanges stored models).DeletedModels = [] →
      (DetectAllChanges stored models).NewFields = [] →
      (DetectAllChanges stored models).DeletedFields = [] →
      0 < (DetectAllChanges stored models).ModifiedFields.length →
      env.mkdirOk = true → env.writeOk = true → env.saveOk = true →
      (GenerateMigrationForApp appName name env).err = none ∧
      (GenerateMigrationForApp appName name env).fileWritten ≠ none) := by
  refine ⟨?_, ?_, ?_⟩
  · intro c
    exact ⟨rfl, rfl⟩
  · intro c h1 h2 h3 h4 h5
    refine ⟨?_, ?_, ?_⟩
    · simp [GenerateMigrationCodeFromChanges, h1, h2, h3, h4]
      intro hne
      exact absurd rfl hne
    · simp [GenerateRollbackCodeFromChanges, h1, h2, h3, h4]
      intro hne
      exact absurd rfl hne
    · exact Or.inr (Or.inr (Or.inr (Or.inr h5)))
  · intro appName name env models stored hscan hlen hload h1 h2 h3 h4 h5 hmk hwr hsv
    have hch : HasChanges (DetectAllChanges stored models) :=
      Or.inr (Or.inr (Or.inr (Or.inr h5)))
    have hnd : ¬ HasDestructiveChanges (DetectAllChanges stored models) := by
      rintro (h | h)
      · rw [h2] at h
        simp at h
      · rw [h4] at h
        simp at h
    have hne : ¬ (models.length = 0) := by omega
    have hgate2 : ¬ (HasDestructiveChanges (DetectAllChanges stored models) ∧
        ¬ lowerResponse env.response = "y") := fun hc => hnd hc.1
    have hmk2 : ¬ (env.mkdirOk = false) := by simp [hmk]
    have hwr2 : ¬ (env.writeOk = false) := by simp [hwr]
    have hsv2 : ¬ (env.saveOk = false) := by simp [hsv]
    simp only [GenerateMigrationForApp, hscan, hload]
    rw [if_neg hne, if_neg (not_not_intro hch), if_neg hgate2, if_neg hmk2, if_neg hwr2,
      if_neg hsv2]
    exact ⟨rfl, by simp⟩

/-- Witness for C9: a type change on the one field of the one model. -/
theorem modifiedFieldsGenerateNoCodeWitness :
    GenerateMigrationCodeFromChanges
        { NewModels := [], DeletedModels := [], NewFields := [], DeletedFields := [],
          ModifiedFields := [("User",
            [{ Name := "Age", Typ := "int64", Tag := "", IsPointer := false }])] } =
      "\t\treturn nil" ∧
    GenerateRollbackCodeFromChanges
        { NewModels := [], DeletedModels := [], NewFields := [], DeletedFields := [],
          ModifiedFields := [("User",
            [{ Name := "Age", Typ := "int64", Tag := "", IsPointer := false }])] } =
      "\t\treturn nil" ∧
    HasChanges
        { NewModels := [], DeletedModels := [], NewFields := [], DeletedFields := [],
          ModifiedFields := [("User",
            [{ Name := "Age", Typ := "int64", Tag := "", IsPointer := false }])] } ∧
    (GenerateMigrationForApp "blog" ""
        { modelsFile := .parsed
            [{ Name := "User",
               Fields := [{ Name := "Age", Typ := "int64", Tag := "", IsPointer := false }],
               PackageName := "models", FilePath := "apps/blog/models.go" }],
          loadState := .ok (some
            { LastHash := "h", LastMigration := "m",
              Models := [("User",
                { Name := "User", Hash := "uh",
                  Fields := [{ Name := "Age", Typ := "int", Tag := "" }] })] }),
          response := "", now := ⟨2024, 1, 2, 3, 4, 5⟩,
          mkdirOk := true, writeOk := true, saveOk := true }).fileWritten ≠ none := by
  have h := modifiedFieldsGenerateNoCode
  rcases h with ⟨_, hOnly, hFile⟩
  have h2 := hOnly
    { NewModels := [], DeletedModels := [], NewFields := [], DeletedFields := [],
      ModifiedFields := [("User",
        [{ Name := "Age", Typ := "int64", Tag := "", IsPointer := false }])] }
    rfl rfl rfl rfl (by decide)
  refine ⟨h2.1, h2.2.1, h2.2.2, ?_⟩
  exact (hFile "blog" ""
    { modelsFile := .parsed
        [{ Name := "User",
           Fields := [{ Name := "Age", Typ := "int64", Tag := "", IsPointer := false }],
           PackageName := "models", FilePath := "apps/blog/models.go" }],
      loadState := .ok (some
        { LastHash := "h", LastMigration := "m",
          Models := [("User",
            { Name := "User", Hash := "uh",
              Fields := [{ Name := "Age", Typ := "int", Tag := "" }] })] }),
      response := "", now := ⟨2024, 1, 2, 3, 4, 5⟩,
      mkdirOk := true, writeOk := true, saveOk := true }
    [{ Name := "User",
       Fields := [{ Name := "Age", Typ := "int64", Tag := "", IsPointer := false }],
       PackageName := "models", FilePath := "apps/blog/models.go" }]
    (some { LastHash := "h", LastMigration := "m",
            Models := [("User",
              { Name := "User", Hash := "uh",
                Fields := [{ Name := "Age", Typ := "int", Tag := "" }] })] })
    rfl (by decide) rfl (by decide) (by decide) (by decide) (by decide) (by decide)
    rfl rfl rfl).2

/-- C10: a missing models file reads as an empty model set with nil error;
only an existing but unparsable file makes `ScanModels` fail; and
`GenerateMigrationForApp` separately rejects an empty model set with its
`no models found` error, writing nothing. -/
theorem missingModelsFileEmptyNotError :
    ScanModels .missing = .ok [] ∧
    (∀ msg, ScanModels (.unparsable msg) =
      .error ("failed to parse models.go: " ++ msg)) ∧
    (∀ f : ModelsFile, (∃ e, ScanModels f = .error e) ↔ ∃ msg, f = .unparsable msg) ∧
    (∀ (appName name : String) (env : GenEnv),
      ScanModels env.modelsFile = .ok [] →
      (GenerateMigrationForApp appName name env).err =
        some ("no models found in apps/" ++ appName ++
          "/models.go - create models first") ∧
      (GenerateMigrationForApp appName name env).fileWritten = none ∧
      (GenerateMigrationForApp appName name env).stateSaved = false) := by
  refine ⟨rfl, fun msg => rfl, ?_, ?_⟩
  · intro f
    cases f with
    | missing => simp [ScanModels]
    | unparsable msg => simp [ScanModels]
    | parsed models => simp [ScanModels]
  · intro appName name env hscan
    have hz : ([] : List ModelInfo).length = 0 := rfl
    simp only [GenerateMigrationForApp, hscan]
    rw [if_pos hz]
    exact ⟨rfl, rfl, rfl⟩

/-- Witness for C10: an app whose models file is absent. -/
theorem missingModelsFileEmptyNotErrorWitness :
    (GenerateMigrationForApp "shop" ""
        { modelsFile := .missing, loadState := .ok none, response := "",
          now := ⟨2024, 1, 2, 3, 4, 5⟩, mkdirOk := true, writeOk := true,
          saveOk := true }).err =
      some ("no models found in apps/" ++ "shop" ++
        "/models.go - create models first") ∧
    ScanModels .missing = .ok [] := by
  have h := missingModelsFileEmptyNotError
  refine ⟨?_, h.1⟩
  exact (h.2.2.2 "shop" ""
    { modelsFile := .missing, loadState := .ok none, response := "",
      now := ⟨2024, 1, 2, 3, 4, 5⟩, mkdirOk := true, writeOk := true, saveOk := true }
    h.1).1

theorem digitChar_toNat (d : Nat) (h : d ≤ 9) : (Nat.digitChar d).toNat = 48 + d := by
  interval_cases d <;> rfl

theorem padNum_length : ∀ (k n : Nat), (padNum k n).length = k := by
  intro k
  induction k with
  | zero => intro n; rfl
  | succ k ih =>
    intro n
    simp [padNum, ih]

theorem padNum_lt : ∀ (k n1 n2 : Nat), n1 < n2 → n2 < 10 ^ k →
    lexLtb (padNum k n1) (padNum k n2) = true := by
  intro k
  induction k with
  | zero =>
    intro n1 n2 h1 h2
    simp [pow_zero] at h2
    omega
  | succ k ih =>
    intro n1 n2 h1 h2
    have hq2 : n2 / 10 ^ k < 10 := by
      rw [Nat.div_lt_iff_lt_mul (Nat.pos_pow_of_pos k (by norm_num))]
      rw [pow_succ] at h2
      omega
    have hq1le : n1 / 10 ^ k ≤ n2 / 10 ^ k := Nat.div_le_div_right (le_of_lt h1)
    rcases lt_or_eq_of_le hq1le with hq | hq
    · simp only [padNum, lexLtb]
      rw [digitChar_toNat (n1 / 10 ^ k) (by omega), digitChar_toNat (n2 / 10 ^ k) (by omega)]
      rw [if_pos (by omega)]
    · have hr : n1 % 10 ^ k < n2 % 10 ^ k := by
        have e1 : 10 ^ k * (n1 / 10 ^ k) + n1 % 10 ^ k = n1 := Nat.div_add_mod n1 (10 ^ k)
        have e2 : 10 ^ k * (n2 / 10 ^ k) + n2 % 10 ^ k = n2 := Nat.div_add_mod n2 (10 ^ k)
        rw [← e1, ← e2, hq] at h1
        exact Nat.lt_of_add_lt_add_left h1
      have hr2 : n2 % 10 ^ k < 10 ^ k :=
        Nat.mod_lt _ (Nat.pos_pow_of_pos k (by norm_num))
      simp only [padNum, lexLtb]
      rw [hq]
      rw [if_neg (Nat.lt_irrefl _), if_neg (Nat.lt_irrefl _)]
      exact ih _ _ hr hr2

theorem lexLtb_append : ∀ (x y r1 r2 : List Char), x.length = y.length →
    lexLtb x y = true → lexLtb (x ++ r1) (y ++ r2) = true := by
  intro x
  induction x with
  | nil =>
    intro y r1 r2 hlen h
    cases y with
    | nil => simp [lexLtb] at h
    | cons b bs => simp at hlen
  | cons a as ih =>
    intro y r1 r2 hlen h
    cases y with
    | nil => simp at hlen
    | cons b bs =>
      simp only [lexLtb] at h
      simp only [List.cons_append, lexLtb]
      split_ifs at h ⊢ with h1 h2
      · rfl
      · exact ih bs r1 r2 (by simpa using hlen) h

theorem lexLtb_irrefl : ∀ x : List Char, lexLtb x x = false := by
  intro x
  induction x with
  | nil => rfl
  | cons a as ih =>
    simp only [lexLtb]
    rw [if_neg (Nat.lt_irrefl _), if_neg (Nat.lt_irrefl _)]
    exact ih

theorem strLt_ne {s t : String} (h : strLt s t) : s ≠ t := by
  intro he
  rw [he] at h
  unfold strLt at h
  rw [lexLtb_irrefl] at h
  cases h

/-- Splitting a zero-padded rendering: the high digits and the low digits
render independently. -/
theorem padNum_append : ∀ (a b x y : Nat), x < 10 ^ a → y < 10 ^ b →
    padNum (a + b) (x * 10 ^ b + y) = padNum a x ++ padNum b y := by
  intro a
  induction a with
  | zero =>
    intro b x y hx hy
    simp [pow_zero] at hx
    subst hx
    simp [padNum]
  | succ a ih =>
    intro b x y hx hy
    have hpow : (0:Nat) < 10 ^ (a + b) := Nat.pos_pow_of_pos _ (by norm_num)
    have hxsplit : x = 10 ^ a * (x / 10 ^ a) + x % 10 ^ a := (Nat.div_add_mod x (10 ^ a)).symm
    have hrem : (x % 10 ^ a) * 10 ^ b + y < 10 ^ (a + b) := by
      have h1 : x % 10 ^ a < 10 ^ a := Nat.mod_lt _ (Nat.pos_pow_of_pos a (by norm_num))
      have h2 : (x % 10 ^ a) * 10 ^ b + y < (x % 10 ^ a) * 10 ^ b + 10 ^ b := by omega
      have h3 : (x % 10 ^ a) * 10 ^ b + 10 ^ b ≤ 10 ^ a * 10 ^ b := by
        have := Nat.succ_le_of_lt h1
        calc (x % 10 ^ a) * 10 ^ b + 10 ^ b = (x % 10 ^ a + 1) * 10 ^ b := by ring
          _ ≤ 10 ^ a * 10 ^ b := Nat.mul_le_mul_right _ this
      rw [pow_add]
      omega
    have hkey : x * 10 ^ b + y =
        10 ^ (a + b) * (x / 10 ^ a) + ((x % 10 ^ a) * 10 ^ b + y) := by
      conv_lhs => rw [hxsplit]
      rw [pow_add]
      ring
    have hdiv : (x * 10 ^ b + y) / 10 ^ (a + b) = x / 10 ^ a := by
      rw [hkey, Nat.mul_add_div hpow, Nat.div_eq_of_lt hrem]
      omega
    have hmod : (x * 10 ^ b + y) % 10 ^ (a + b) = (x % 10 ^ a) * 10 ^ b + y := by
      rw [hkey, Nat.mul_add_mod, Nat.mod_eq_of_lt hrem]
    have hstep : a + 1 + b = (a + b) + 1 := by omega
    rw [hstep]
    simp only [padNum]
    rw [hdiv, hmod, ih b (x % 10 ^ a) y (Nat.mod_lt _ (Nat.pos_pow_of_pos a (by norm_num))) hy]
    rfl

theorem tsKey_lt_pow (t : Timestamp) (hv : ValidTimestamp t) : tsKey t < 10 ^ 14 := by
  obtain ⟨h1, h2, h3, h4, h5, h6, h7, h8⟩ := hv
  have hp : (10:ℕ) ^ 14 = 100000000000000 := by norm_num
  rw [hp]
  unfold tsKey
  omega

/-- The layout rendering agrees with the zero-padded rendering of the
numeric key `yyyymmddhhmmss`. -/
theorem formatTimestamp_eq_padNum (t : Timestamp) (hv : ValidTimestamp t) :
    (formatTimestamp t).data = padNum 14 (tsKey t) := by
  obtain ⟨h1, h2, h3, h4, h5, h6, h7, h8⟩ := hv
  have e2 : (10:ℕ) ^ 2 = 100 := by norm_num
  have e4 : (10:ℕ) ^ 4 = 10000 := by norm_num
  have e6 : (10:ℕ) ^ 6 = 1000000 := by norm_num
  have e8 : (10:ℕ) ^ 8 = 100000000 := by norm_num
  have e10 : (10:ℕ) ^ 10 = 10000000000 := by norm_num
  have e12 : (10:ℕ) ^ 12 = 1000000000000 := by norm_num
  have b1 : t.year * 100 + t.month < 10 ^ 6 := by rw [e6]; omega
  have b2 : (t.year * 100 + t.month) * 100 + t.day < 10 ^ 8 := by rw [e8]; omega
  have b3 : ((t.year * 100 + t.month) * 100 + t.day) * 100 + t.hour < 10 ^ 10 := by
    rw [e10]; omega
  have b4 : (((t.year * 100 + t.month) * 100 + t.day) * 100 + t.hour) * 100 + t.minute <
      10 ^ 12 := by rw [e12]; omega
  have hyear : t.year < 10 ^ 4 := by rw [e4]; omega
  have hmonth : t.month < 10 ^ 2 := by rw [e2]; omega
  have hday : t.day < 10 ^ 2 := by rw [e2]; omega
  have hhour : t.hour < 10 ^ 2 := by rw [e2]; omega
  have hminute : t.minute < 10 ^ 2 := by rw [e2]; omega
  have hsecond : t.second < 10 ^ 2 := by rw [e2]; omega
  have s1 : padNum 14 (tsKey t) =
      padNum 12 ((((t.year * 100 + t.month) * 100 + t.day) * 100 + t.hour) * 100 +
        t.minute) ++ padNum 2 t.second := by
    have := padNum_append 12 2
      ((((t.year * 100 + t.month) * 100 + t.day) * 100 + t.hour) * 100 + t.minute)
      t.second b4 hsecond
    rw [← this]
    unfold tsKey
    rw [e2]
  have s2 : padNum 12 ((((t.year * 100 + t.month) * 100 + t.day) * 100 + t.hour) * 100 +
      t.minute) =
      padNum 10 (((t.year * 100 + t.month) * 100 + t.day) * 100 + t.hour) ++
        padNum 2 t.minute := by
    have := padNum_append 10 2 (((t.year * 100 + t.month) * 100 + t.day) * 100 + t.hour)
      t.minute b3 hminute
    rw [← this, e2]
  have s3 : padNum 10 (((t.year * 100 + t.month) * 100 + t.day) * 100 + t.hour) =
      padNum 8 ((t.year * 100 + t.month) * 100 + t.day) ++ padNum 2 t.hour := by
    have := padNum_append 8 2 ((t.year * 100 + t.month) * 100 + t.day) t.hour b2 hhour
    rw [← this, e2]
  have s4 : padNum 8 ((t.year * 100 + t.month) * 100 + t.day) =
      padNum 6 (t.year * 100 + t.month) ++ padNum 2 t.day := by
    have := padNum_append 6 2 (t.year * 100 + t.month) t.day b1 hday
    rw [← this, e2]
  have s5 : padNum 6 (t.year * 100 + t.month) = padNum 4 t.year ++ padNum 2 t.month := by
    have := padNum_append 4 2 t.year t.month hyear hmonth
    rw [← this, e2]
  rw [s1, s2, s3, s4, s5]
  unfold formatTimestamp
  simp [List.append_assoc]

/-- The identifier data always starts with the 14 rendered digits. -/
theorem migrationID_data (t : Timestamp) (n : String) :
    ∃ r, (migrationID t n).data = (formatTimestamp t).data ++ r := by
  unfold migrationID
  by_cases h : n == ""
  · rw [if_pos h]
    exact ⟨[], by simp⟩
  · rw [if_neg h]
    refine ⟨("_" ++ cleanMigrationName n).data, ?_⟩
    rw [← String.data_append]
    rw [String.append_assoc]

/-- C2 (amended): migration identifiers are strictly increasing in Go
string order, and hence distinct, across generation calls whose wall-clock
seconds differ: when both timestamps are valid and the first keys strictly
below the second, `migrationID` at the first is lexicographically below
`migrationID` at the second for any pair of names.  (Calls within the same
second can collide, which is what the counterexample shows.) -/
theorem migrationIdMonotoneAcrossSeconds (t1 t2 : Timestamp) (n1 n2 : String)
    (hv1 : ValidTimestamp t1) (hv2 : ValidTimestamp t2)
    (hlt : tsKey t1 < tsKey t2) :
    strLt (migrationID t1 n1) (migrationID t2 n2) ∧
      migrationID t1 n1 ≠ migrationID t2 n2 := by
  obtain ⟨r1, hr1⟩ := migrationID_data t1 n1
  obtain ⟨r2, hr2⟩ := migrationID_data t2 n2
  have hlt2 : strLt (migrationID t1 n1) (migrationID t2 n2) := by
    unfold strLt
    rw [hr1, hr2, formatTimestamp_eq_padNum t1 hv1, formatTimestamp_eq_padNum t2 hv2]
    apply lexLtb_append
    · rw [padNum_length, padNum_length]
    · exact padNum_lt 14 (tsKey t1) (tsKey t2) hlt (tsKey_lt_pow t2 hv2)
  exact ⟨hlt2, strLt_ne hlt2⟩

/-- Witness for C2 (amended): one second apart, ids are ordered and
distinct. -/
theorem migrationIdMonotoneAcrossSecondsWitness :
    strLt (migrationID ⟨2024, 1, 2, 3, 4, 5⟩ "init")
        (migrationID ⟨2024, 1, 2, 3, 4, 6⟩ "init") ∧
      migrationID ⟨2024, 1, 2, 3, 4, 5⟩ "init" ≠
        migrationID ⟨2024, 1, 2, 3, 4, 6⟩ "init" :=
  migrationIdMonotoneAcrossSeconds ⟨2024, 1, 2, 3, 4, 5⟩ ⟨2024, 1, 2, 3, 4, 6⟩
    "init" "init" (by decide) (by decide) (by decide)

/-- C2 counterexample: two distinct generation calls (different apps) in the
same wall-clock second with the same name both succeed and produce the very
same migration identifier, so identifiers are not globally unique across
distinct calls. -/
theorem migrationIdCollisionCounterexample :
    "blog" ≠ "shop" ∧
    (GenerateMigrationForApp "blog" "init"
        { modelsFile := .parsed
            [{ Name := "User", Fields := [], PackageName := "models",
               FilePath := "apps/blog/models.go" }],
          loadState := .ok none, response := "", now := ⟨2024, 1, 2, 3, 4, 5⟩,
          mkdirOk := true, writeOk := true, saveOk := true }).migID =
      some "20240102030405_init" ∧
    (GenerateMigrationForApp "shop" "init"
        { modelsFile := .parsed
            [{ Name := "User", Fields := [], PackageName := "models",
               FilePath := "apps/shop/models.go" }],
          loadState := .ok none, response := "", now := ⟨2024, 1, 2, 3, 4, 5⟩,
          mkdirOk := true, writeOk := true, saveOk := true }).migID =
      some "20240102030405_init" := by
  refine ⟨by decide, by decide, by decide⟩

end Bourbon
